import Mathlib

/-!
# DocumentDB: retrieval core

A shallow embedding of `backend/services/ragService.js`, `backend/routes/rag.js`,
`backend/routes/documents.js` and the parts of `backend/models/Document.js` and
`backend/models/Query.js` they read, followed by theorems about extraction,
chunking, index building, similarity search and the routes.

Conventions of the embedding.

* A rejected promise / thrown error is `Except.error` carrying the JS error.
* Every call of the Hugging Face client made during an operation is recorded,
  in order, in the `calls` field of the operation's `Outcome`.
* JS numbers are represented by `Int`; the source performs no arithmetic on
  embedding values itself (similarity is computed inside the vector store and
  is a field of `Env`).
* Third-party pieces (Node `fs`/`path`, `PDFLoader`, the text splitter, the
  Hugging Face client, the chat endpoint, the Mongo collections) are fields of
  `Env`; the `Document` collection is a list in memory.
* Strings are sequences of Unicode code points. Where the source cuts a
  string with `slice`, which counts UTF-16 code units and may cut a surrogate
  pair, the result is given by its UTF-16 code units (`toUtf16`).
-/

namespace DocumentDB

/-! ## Data model -/

/-- A JS `Error`; only the message is observable in the routes. -/
structure JsError where
  message : String
deriving DecidableEq, Repr

/-- A Mongo `ObjectId`; `toString` gives its hex string. -/
structure ObjectId where
  hex : String
deriving DecidableEq, Repr

/-- The method `ObjectId.prototype.toString`. -/
def ObjectId.toString (o : ObjectId) : String := o.hex

/-- The `status` enum of `documentSchema` (models/Document.js, lines 27-31). -/
inductive Status
  | uploaded
  | processing
  | ready
  | error
deriving DecidableEq, Repr

/-- A record of the `Document` collection (models/Document.js). -/
structure DocumentRecord where
  _id : ObjectId
  userId : ObjectId
  originalName : String
  storedFilename : String
  mimeType : String
  size : Nat
  status : Status
deriving DecidableEq, Repr

/-- A JSON value as returned by the embedding provider. -/
inductive JsVal
  | undefined
  | null
  | bool (b : Bool)
  | num (x : Int)
  | str (s : String)
  | arr (xs : List JsVal)

/-- The `inputs` field of a feature-extraction request: one string or an array. -/
inductive HfInputs
  | one (text : String)
  | many (texts : List String)
deriving DecidableEq, Repr

/-- One request `client.featureExtraction({ model, inputs })` of a client
constructed as `new HfInference(accessToken)`. -/
structure HfRequest where
  accessToken : Option String
  model : String
  inputs : HfInputs
deriving DecidableEq, Repr

/-- A page returned by `PDFLoader.load()`. -/
structure PdfPage where
  pageContent : String
deriving DecidableEq, Repr

/-- Chunk provenance written in `buildVectorStoreForUser` (lines 184-187). -/
structure Metadata where
  documentId : String
  originalName : String
deriving DecidableEq, Repr

/-- A LangChain `Document`: a chunk with its metadata. -/
structure Document where
  pageContent : String
  metadata : Metadata
deriving DecidableEq, Repr

/-- An entry of `MemoryVectorStore.memoryVectors`. -/
structure MemoryVector where
  content : String
  embedding : List Int
  metadata : Metadata
deriving DecidableEq, Repr

/-- The in-memory index. -/
structure MemoryVectorStore where
  memoryVectors : List MemoryVector
deriving DecidableEq, Repr

/-- The reply of the chat-completions endpoint, as far as the route reads it. -/
structure ChatResponse where
  /-- The flag `response.ok`. -/
  ok : Bool
  /-- The HTTP status `response.status`. -/
  status : Nat
  /-- The body text, `await response.text()`. -/
  text : String
  /-- The value of `data.choices?.[0]?.message?.content` for
  `data = await response.json()`, which may reject. -/
  content : Except JsError (Option String)

/-- An item of `sources` in the JSON body of the routes (rag.js, lines 26-31). -/
structure Source where
  text : String
  documentId : String
  documentName : String
  sourceNumber : Nat
deriving DecidableEq, Repr

/-- An item of `sources` in a saved `Query` record (rag.js, lines 159-164).
The snippet is a JS string given by its UTF-16 code units: `slice` may leave
half of a surrogate pair at its end. -/
structure SavedSource where
  documentId : Option String
  documentName : String
  textSnippet : List Nat
  sourceNumber : Nat
deriving DecidableEq, Repr

/-- The argument of `Query.create` (rag.js, lines 155-165). -/
structure QueryRecord where
  userId : ObjectId
  question : String
  answer : String
  sources : List SavedSource
deriving DecidableEq, Repr

/-- Everything outside the repository that the retrieval core talks to. -/
structure Env where
  /-- The `Document` collection, in the order `find` returns records. -/
  documents : List DocumentRecord
  /-- The value of `path.join(__dirname, "..", "uploads")`. -/
  uploadsDir : String
  /-- Node `path.join` of two segments. -/
  pathJoin : String → String → String
  /-- Node `fs.existsSync`. -/
  existsSync : String → Bool
  /-- Node `fs.readFileSync`: the bytes of the file. -/
  readFileSync : String → Except JsError (List Nat)
  /-- The method `Buffer.prototype.toString("utf8")`. -/
  utf8 : List Nat → String
  /-- The call `new PDFLoader(filePath).load()`. -/
  pdfLoad : String → Except JsError (List PdfPage)
  /-- The page contents of
  `new RecursiveCharacterTextSplitter({chunkSize, chunkOverlap}).createDocuments([text])`. -/
  splitText : Nat → Nat → String → List String
  /-- The variables of `process.env`. -/
  processEnv : String → Option String
  /-- The provider: `new HfInference(token).featureExtraction({model, inputs})`. -/
  featureExtraction : HfRequest → Except JsError JsVal
  /-- The value of `Number(v)` for a `v` that is not a number. -/
  numberOfOther : JsVal → Int
  /-- The similarity of the vector store (cosine similarity by default). -/
  similarity : List Int → List Int → Int
  /-- The chat-completions `fetch` for a prompt. -/
  fetchChat : String → Except JsError ChatResponse
  /-- The call `Query.create`. -/
  queryCreate : QueryRecord → Except JsError Unit

/-- The result of an asynchronous operation together with the provider
requests it issued, oldest first. -/
structure Outcome (α : Type) where
  result : Except JsError α
  calls : List HfRequest

/-! ## JS helpers -/

/-- JS truthiness of an optional string: absent and `""` are falsy. -/
def truthy : Option String → Bool
  | none => false
  | some s => s != ""

/-- JS `a || b` on optional strings. -/
def jsOr (a b : Option String) : Option String :=
  if truthy a then a else b

/-- ECMAScript WhiteSpace and LineTerminator code points, as removed by
`String.prototype.trim`. -/
def isJsWhiteSpace (c : Char) : Bool :=
  c.toNat ∈ [0x09, 0x0A, 0x0B, 0x0C, 0x0D, 0x20, 0xA0, 0x1680, 0x2000, 0x2001,
    0x2002, 0x2003, 0x2004, 0x2005, 0x2006, 0x2007, 0x2008, 0x2009, 0x200A,
    0x2028, 0x2029, 0x202F, 0x205F, 0x3000, 0xFEFF]

/-- JS `String.prototype.trim`. -/
def jsTrim (s : String) : String :=
  String.mk ((s.data.dropWhile isJsWhiteSpace).reverse.dropWhile isJsWhiteSpace).reverse

/-- The test `!fullText || !fullText.trim()` (lines 116 and 175). -/
def isBlank (fullText : String) : Bool :=
  fullText == "" || jsTrim fullText == ""

/-- The UTF-16 code units of a code point: itself below `0x10000`, a high and a
low surrogate otherwise. -/
def utf16Units (c : Char) : List Nat :=
  if c.toNat < 0x10000 then [c.toNat]
  else [0xD800 + (c.toNat - 0x10000) / 0x400, 0xDC00 + (c.toNat - 0x10000) % 0x400]

/-- The UTF-16 code units of a string, the sequence that JS `length` and
`slice` count. -/
def toUtf16 (s : String) : List Nat :=
  s.data.flatMap utf16Units

/-- JS `s.slice(0, n)` for a natural number `n`: the first `n` UTF-16 code
units of `s`. -/
def jsSliceFromStart (s : String) (n : Nat) : List Nat :=
  (toUtf16 s).take n

/-- JS `Number(v)`: the identity on numbers. -/
def jsNumber (env : Env) : JsVal → Int
  | .num x => x
  | v => env.numberOfOther v

/-- The value `TypeError: <what>`. -/
def typeError (what : String) : JsError := ⟨what⟩

/-- Left-to-right `Array.prototype.map` with a callback that may throw. -/
def mapThrowing {α β : Type} (f : α → Except JsError β) : List α → Except JsError (List β)
  | [] => .ok []
  | x :: xs =>
    match f x with
    | .error e => .error e
    | .ok y =>
      match mapThrowing f xs with
      | .error e => .error e
      | .ok ys => .ok (y :: ys)

/-- JS `Array.isArray`. -/
def isArray : JsVal → Bool
  | .arr _ => true
  | _ => false

/-- JS `v[0]`: throws on `undefined` and `null`. -/
def index0 : JsVal → Except JsError JsVal
  | .undefined => .error (typeError "Cannot read properties of undefined (reading 0)")
  | .null => .error (typeError "Cannot read properties of null (reading 0)")
  | .arr (x :: _) => .ok x
  | .str s =>
    match s.data with
    | c :: _ => .ok (.str (String.singleton c))
    | [] => .ok .undefined
  | _ => .ok .undefined

/-- JS `v.map(Number)`: only arrays have `map`. -/
def mapNumber (env : Env) : JsVal → Except JsError (List Int)
  | .arr xs => .ok (xs.map (jsNumber env))
  | _ => .error (typeError "v.map is not a function")

/-- The normalisation shared by `embedDocuments` (lines 51-52) and
`embedQuery` (lines 67-68):
`const v = Array.isArray(vec[0]) ? vec[0] : vec; return v.map(Number)`. -/
def normalizeVec (env : Env) (vec : JsVal) : Except JsError (List Int) :=
  match index0 vec with
  | .error e => .error e
  | .ok v0 => mapNumber env (if isArray v0 then v0 else vec)

/-! ## services/ragService.js -/

/-- The class `HFCustomEmbeddings` (lines 17-74): its two data fields; the
client is `new HfInference(this.apiKey)`. -/
structure HFCustomEmbeddings where
  apiKey : Option String
  model : String
deriving DecidableEq, Repr

/-- The constructor of `HFCustomEmbeddings` (lines 18-39). -/
def HFCustomEmbeddings.new (env : Env) (fieldsApiKey fieldsModel : Option String) :
    HFCustomEmbeddings :=
  ⟨jsOr (jsOr fieldsApiKey (env.processEnv "HUGGINGFACEHUB_API_KEY"))
      (env.processEnv "HF_API_KEY"),
    (jsOr fieldsModel (some "sentence-transformers/all-MiniLM-L6-v2")).getD
      "sentence-transformers/all-MiniLM-L6-v2"⟩

/-- The method `embedDocuments` (lines 42-58): one request for all texts, then
`res.map` of the normalisation; any error is logged and rethrown. -/
def HFCustomEmbeddings.embedDocuments (env : Env) (self : HFCustomEmbeddings)
    (texts : List String) : Outcome (List (List Int)) :=
  let req : HfRequest := ⟨self.apiKey, self.model, .many texts⟩
  ⟨match env.featureExtraction req with
    | .error error => .error error
    | .ok (.arr res) => mapThrowing (normalizeVec env) res
    | .ok _ => .error (typeError "res.map is not a function"),
   [req]⟩

/-- The method `embedQuery` (lines 61-73). -/
def HFCustomEmbeddings.embedQuery (env : Env) (self : HFCustomEmbeddings)
    (text : String) : Outcome (List Int) :=
  let req : HfRequest := ⟨self.apiKey, self.model, .one text⟩
  ⟨match env.featureExtraction req with
    | .error error => .error error
    | .ok res => normalizeVec env res,
   [req]⟩

/-- The module-level constant `embeddings` (lines 79-82). -/
def embeddings (env : Env) : HFCustomEmbeddings :=
  HFCustomEmbeddings.new env none (some "sentence-transformers/all-MiniLM-L6-v2")

/-- The function `extractTextFromFile` (lines 85-99). -/
def extractTextFromFile (env : Env) (filePath mimeType : String) : Except JsError String :=
  if mimeType = "application/pdf" then
    match env.pdfLoad filePath with
    | .error e => .error e
    | .ok docs => .ok ("\n\n".intercalate (docs.map fun d => d.pageContent))
  else if mimeType = "text/plain" then
    match env.readFileSync filePath with
    | .error e => .error e
    | .ok buffer => .ok (env.utf8 buffer)
  else
    .error ⟨"Unsupported mimeType for text extraction: " ++ mimeType⟩

/-- The query `DocumentModel.find({ userId, status: "ready" })` (lines 149-152). -/
def findReady (env : Env) (userId : ObjectId) : List DocumentRecord :=
  env.documents.filter fun d => d.userId = userId && d.status = Status.ready

/-- The chunks of one document with their metadata (lines 180-188). -/
def chunksOf (env : Env) (doc : DocumentRecord) (fullText : String) : List Document :=
  (env.splitText 500 100 fullText).map fun c =>
    ⟨c, ⟨doc._id.toString, doc.originalName⟩⟩

/-- The loop of `buildVectorStoreForUser` (lines 165-191), started with the
`allDocs` collected so far. -/
def collectChunks (env : Env) : List DocumentRecord → List Document →
    Except JsError (List Document)
  | [], allDocs => .ok allDocs
  | doc :: rest, allDocs =>
    let filePath := env.pathJoin env.uploadsDir doc.storedFilename
    if !env.existsSync filePath then
      collectChunks env rest allDocs
    else
      match extractTextFromFile env filePath doc.mimeType with
      | .error e => .error e
      | .ok fullText =>
        if isBlank fullText then
          collectChunks env rest allDocs
        else
          collectChunks env rest (allDocs ++ chunksOf env doc fullText)

/-- LangChain `MemoryVectorStore.addVectors`:
`vectors.map((embedding, idx) => ({ content: documents[idx].pageContent,
embedding, metadata: documents[idx].metadata }))`. Reading `pageContent` of
`documents[idx]` throws once `idx` runs past the documents. -/
def addVectors : List (List Int) → List Document → Except JsError (List MemoryVector)
  | [], _ => .ok []
  | _ :: _, [] =>
    .error (typeError "Cannot read properties of undefined (reading pageContent)")
  | embedding :: vectors, d :: documents =>
    match addVectors vectors documents with
    | .error e => .error e
    | .ok rest => .ok (⟨d.pageContent, embedding, d.metadata⟩ :: rest)

/-- LangChain `MemoryVectorStore.fromDocuments(docs, embeddings)`: embeds
`docs.map(d => d.pageContent)` in one `embedDocuments` call and adds the
vectors. -/
def MemoryVectorStore.fromDocuments (env : Env) (docs : List Document)
    (emb : HFCustomEmbeddings) : Outcome MemoryVectorStore :=
  let e := emb.embedDocuments env (docs.map fun d => d.pageContent)
  ⟨match e.result with
    | .error err => .error err
    | .ok vectors =>
      match addVectors vectors docs with
      | .error err => .error err
      | .ok mvs => .ok ⟨mvs⟩,
   e.calls⟩

/-- The update `DocumentModel.findByIdAndUpdate(id, { status })` on the
collection: the first record with that `_id` gets the status. -/
def findByIdAndUpdate (id : ObjectId) (status : Status) :
    List DocumentRecord → List DocumentRecord
  | [] => []
  | d :: ds =>
    if d._id = id then { d with status := status } :: ds
    else d :: findByIdAndUpdate id status ds

/-- What `processDocument` did: what its caller observes, the status updates
it issued, the collection afterwards and the provider requests. -/
structure Processed where
  result : Except JsError Unit
  writes : List (ObjectId × Status)
  documents : List DocumentRecord
  calls : List HfRequest

/-- The `try` block of `processDocument` up to the vector store (lines
104-131). The chunks are embedded for a store that is dropped; their
metadata (the line range of the chunk) plays no part and is left empty. -/
def processDocumentTry (env : Env) (doc : DocumentRecord) : Outcome MemoryVectorStore :=
  let filePath := env.pathJoin env.uploadsDir doc.storedFilename
  if !env.existsSync filePath then
    ⟨.error ⟨"File not found on disk: " ++ filePath⟩, []⟩
  else
    match extractTextFromFile env filePath doc.mimeType with
    | .error e => ⟨.error e, []⟩
    | .ok fullText =>
      if isBlank fullText then
        ⟨.error ⟨"No text extracted from document"⟩, []⟩
      else
        let docs : List Document :=
          (env.splitText 500 100 fullText).map fun c => ⟨c, ⟨"", ""⟩⟩
        MemoryVectorStore.fromDocuments env docs (embeddings env)

/-- The function `processDocument` (lines 102-142): the status is set to
`ready` after the `try` block and to `error` in the `catch`, which logs the
error and does not rethrow. -/
def processDocument (env : Env) (doc : DocumentRecord) : Processed :=
  let t := processDocumentTry env doc
  match t.result with
  | .ok _ =>
    ⟨.ok (), [(doc._id, Status.ready)],
      findByIdAndUpdate doc._id Status.ready env.documents, t.calls⟩
  | .error _err =>
    ⟨.ok (), [(doc._id, Status.error)],
      findByIdAndUpdate doc._id Status.error env.documents, t.calls⟩

/-- The function `buildVectorStoreForUser` (lines 145-202). -/
def buildVectorStoreForUser (env : Env) (userId : ObjectId) : Outcome MemoryVectorStore :=
  let docsMeta := findReady env userId
  if docsMeta.length = 0 then
    ⟨.error ⟨"No ready documents for this user."⟩, []⟩
  else
    match collectChunks env docsMeta [] with
    | .error e => ⟨.error e, []⟩
    | .ok allDocs =>
      if allDocs.length = 0 then
        ⟨.error ⟨"No chunks available to build vector store."⟩, []⟩
      else
        MemoryVectorStore.fromDocuments env allDocs (embeddings env)

/-- Modelled from the spec: the ranking step of LangChain
`MemoryVectorStore.similaritySearchVectorWithScore`, whose source is not part
of the repository ("Sort descending by score; ties broken by original index
order"). Inserts `x`, which precedes every element of the list in index order,
in front of the first element whose score does not exceed its own. -/
def insertRanked (x : Document × Int) : List (Document × Int) → List (Document × Int)
  | [] => [x]
  | y :: ys => if y.2 ≤ x.2 then x :: y :: ys else y :: insertRanked x ys

/-- Modelled from the spec: the stable descending sort by score of the
ranking step (see `insertRanked`). -/
def sortRanked : List (Document × Int) → List (Document × Int)
  | [] => []
  | x :: xs => insertRanked x (sortRanked xs)

/-- Modelled from the spec: LangChain
`MemoryVectorStore.similaritySearchVectorWithScore(query, k)` without a filter
function, whose source is not part of the repository: score every entry
against the query vector, sort descending (ties in index order), keep the
first `k` ("Returns at most k results"). -/
def MemoryVectorStore.similaritySearchVectorWithScore (env : Env) (self : MemoryVectorStore)
    (query : List Int) (k : Nat) : List (Document × Int) :=
  (sortRanked (self.memoryVectors.map fun v =>
    (⟨v.content, v.metadata⟩, env.similarity query v.embedding))).take k

/-- LangChain `VectorStore.similaritySearch(query, k)`: embeds the query with
`embedQuery`, ranks, and returns the documents without their scores. -/
def MemoryVectorStore.similaritySearch (env : Env) (self : MemoryVectorStore)
    (emb : HFCustomEmbeddings) (query : String) (k : Nat) : Outcome (List Document) :=
  let q := emb.embedQuery env query
  ⟨match q.result with
    | .error err => .error err
    | .ok vec => .ok ((self.similaritySearchVectorWithScore env vec k).map Prod.fst),
   q.calls⟩

set_option linter.unusedVariables false in
/-- The function `queryUserDocuments` (lines 205-209). The parameter
`documentId` is accepted and not read by the body. -/
def queryUserDocuments (env : Env) (userId : ObjectId) (question : String) (k : Nat)
    (documentId : Option String) : Outcome (List Document) :=
  let b := buildVectorStoreForUser env userId
  match b.result with
  | .error e => ⟨.error e, b.calls⟩
  | .ok vectorStore =>
    let s := vectorStore.similaritySearch env (embeddings env) question k
    ⟨s.result, b.calls ++ s.calls⟩

/-! ## routes/rag.js -/

/-- The JSON bodies sent by the two routes. -/
inductive Body
  | message (message : String)
  | failure (message error : String)
  | sources (question : String) (sources : List Source)
  | answer (question answer : String) (sources : List Source)
deriving DecidableEq, Repr

/-- An HTTP response: status code and JSON body. -/
structure Response where
  status : Nat
  body : Body
deriving DecidableEq, Repr

/-- What a route handler did: its response, the provider requests issued, the
prompts sent to the chat endpoint and the records passed to `Query.create`. -/
structure Handled where
  response : Response
  calls : List HfRequest
  prompts : List String
  saves : List QueryRecord

/-- The expression `err.message || "Unknown error"`. -/
def errorText (err : JsError) : String :=
  if err.message = "" then "Unknown error" else err.message

/-- The mapping of results to `sources` (rag.js, lines 26-31 and 146-151). -/
def toSources (results : List Document) : List Source :=
  results.mapIdx fun i doc =>
    ⟨doc.pageContent, doc.metadata.documentId, doc.metadata.originalName, i + 1⟩

/-- The handler of `POST /rag/query` (rag.js, lines 13-44), after the
authentication middleware has set `req.user.userId`. -/
def postQuery (env : Env) (userId : ObjectId) (question : Option String) : Handled :=
  match question with
  | none => ⟨⟨400, .message "Question is required"⟩, [], [], []⟩
  | some q =>
    if isBlank q then
      ⟨⟨400, .message "Question is required"⟩, [], [], []⟩
    else
      let r := queryUserDocuments env userId q 5 none
      match r.result with
      | .error err => ⟨⟨500, .failure "RAG query failed" (errorText err)⟩, r.calls, [], []⟩
      | .ok results => ⟨⟨200, .sources q (toSources results)⟩, r.calls, [], []⟩

/-- The context text for the chat prompt (rag.js, lines 80-85). -/
def contextText (results : List Document) : String :=
  "\n\n----------------\n\n".intercalate (results.mapIdx fun i doc =>
    let sourceName :=
      if doc.metadata.originalName = "" then "Document " ++ toString (i + 1)
      else doc.metadata.originalName
    "Source " ++ toString (i + 1) ++ " (" ++ sourceName ++ "):\n" ++ doc.pageContent)

/-- The prompt template (rag.js, lines 87-101). -/
def prompt (question : String) (context : String) : String :=
  "\nYou are an AI assistant that answers questions ONLY using the provided document context.\n"
  ++ "If the answer is not clearly in the context, say \"I couldn\x27t find that in the documents.\"\n"
  ++ "\nQuestion:\n" ++ question ++ "\n\nContext:\n" ++ context ++ "\n\nInstructions:\n"
  ++ "- Answer in clear, concise sentences.\n"
  ++ "- Do NOT guess beyond the context.\n"
  ++ "- If possible, mention which source numbers you used.\n"

/-- The record saved to the query history (rag.js, lines 155-165). -/
def toQueryRecord (userId : ObjectId) (question answer : String) (sources : List Source) :
    QueryRecord :=
  ⟨userId, question, answer, sources.map fun s =>
    ⟨if s.documentId = "" then none else some s.documentId,
     if s.documentName = "" then "Unknown document" else s.documentName,
     jsSliceFromStart s.text 300,
     s.sourceNumber⟩⟩

/-- The handler of `POST /rag/answer` (rag.js, lines 48-183), after the
authentication middleware has set `req.user.userId`. -/
def postAnswer (env : Env) (userId : ObjectId) (question documentId : Option String) :
    Handled :=
  match question with
  | none => ⟨⟨400, .message "Question is required"⟩, [], [], []⟩
  | some q =>
    if isBlank q then
      ⟨⟨400, .message "Question is required"⟩, [], [], []⟩
    else if !truthy (env.processEnv "OPENROUTER_API_KEY") then
      ⟨⟨500, .message "OPENROUTER_API_KEY is not set in environment variables"⟩, [], [], []⟩
    else
      let r := queryUserDocuments env userId q 5 (jsOr documentId none)
      match r.result with
      | .error err =>
        ⟨⟨500, .failure "RAG answer generation failed" (errorText err)⟩, r.calls, [], []⟩
      | .ok results =>
        if results.length = 0 then
          ⟨⟨400, .message "No relevant documents found for this user."⟩, r.calls, [], []⟩
        else
          let p := prompt q (contextText results)
          match env.fetchChat p with
          | .error err =>
            ⟨⟨500, .failure "RAG answer generation failed" (errorText err)⟩, r.calls, [p], []⟩
          | .ok response =>
            if !response.ok then
              ⟨⟨500, .failure "OpenRouter request failed"
                  ("Status " ++ toString response.status ++ ": " ++ response.text)⟩,
                r.calls, [p], []⟩
            else
              match response.content with
              | .error err =>
                ⟨⟨500, .failure "RAG answer generation failed" (errorText err)⟩,
                  r.calls, [p], []⟩
              | .ok content =>
                let answer := (jsOr content
                  (some "I couldn\x27t generate an answer from the documents.")).getD
                  "I couldn\x27t generate an answer from the documents."
                let sources := toSources results
                let record := toQueryRecord userId q answer sources
                match env.queryCreate record with
                | .error _saveErr => ⟨⟨200, .answer q answer sources⟩, r.calls, [p], [record]⟩
                | .ok _ => ⟨⟨200, .answer q answer sources⟩, r.calls, [p], [record]⟩

/-! ## routes/documents.js -/

/-- The file of a multipart request as multer hands it to `fileFilter`. -/
structure UploadFile where
  originalname : String
  mimetype : String
  size : Nat
deriving DecidableEq, Repr

/-- The value `req.file` after multer stored the file. -/
structure StoredFile where
  originalname : String
  mimetype : String
  size : Nat
  filename : String
deriving DecidableEq, Repr

/-- The function `fileFilter` (documents.js, lines 32-40): `cb(null, true)` is
`.ok true`, `cb(new Error(...), false)` is the error. -/
def fileFilter (file : UploadFile) : Except JsError Bool :=
  let allowedMimeTypes := ["application/pdf", "text/plain"]
  if allowedMimeTypes.contains file.mimetype then .ok true
  else .error ⟨"Only PDF and text files are allowed"⟩

/-- The middleware `upload.single("file")` of multer configured at lines 20-48,
at time `now`: the filter runs first, then the size limit of 10 MB; the stored
name is `Date.now() + "-" + file.originalname`. An error goes to the error
handler of the server and the route handler does not run. -/
def uploadSingle (now : Nat) : Option UploadFile → Except JsError (Option StoredFile)
  | none => .ok none
  | some file =>
    match fileFilter file with
    | .error e => .error e
    | .ok false => .ok none
    | .ok true =>
      if file.size > 10 * 1024 * 1024 then .error ⟨"File too large"⟩
      else .ok (some ⟨file.originalname, file.mimetype, file.size,
        toString now ++ "-" ++ file.originalname⟩)

/-- What the upload route did: status and message of the response, the
document created, and the collection afterwards. When the middleware failed
the handler did not run and `status` is the 500 of the error handler. -/
structure Uploaded where
  status : Nat
  message : String
  document : Option DocumentRecord
  documents : List DocumentRecord

/-- The route `POST /documents/upload` (documents.js, lines 51-79) behind the
multer middleware; `created` is the outcome of `Document.create`: the new
`_id`, or the error that the handler turns into "Server error". -/
def postUpload (env : Env) (userId : ObjectId) (now : Nat) (created : Except JsError ObjectId)
    (file : Option UploadFile) : Uploaded :=
  match uploadSingle now file with
  | .error e => ⟨500, e.message, none, env.documents⟩
  | .ok none => ⟨400, "No file uploaded", none, env.documents⟩
  | .ok (some reqFile) =>
    match created with
    | .error _err => ⟨500, "Server error", none, env.documents⟩
    | .ok id =>
      let doc : DocumentRecord :=
        ⟨id, userId, reqFile.originalname, reqFile.filename, reqFile.mimetype, reqFile.size,
          Status.ready⟩
      ⟨201, "File uploaded successfully.", some doc, env.documents ++ [doc]⟩

/-- What the delete route did: its response and the collection afterwards. -/
structure Deleted where
  response : Response
  documents : List DocumentRecord

/-- The route `DELETE /documents/:id` (documents.js, lines 94-106):
`Document.findOne({ _id: id, userId })`, then `doc.deleteOne()`, which removes
the record with the `_id` of `doc`. -/
def deleteDocument (env : Env) (userId : ObjectId) (id : ObjectId) : Deleted :=
  match env.documents.find? fun d => d._id = id && d.userId = userId with
  | none => ⟨⟨404, .message "Document not found"⟩, env.documents⟩
  | some doc =>
    ⟨⟨200, .message "Document deleted"⟩, env.documents.eraseP fun d => d._id = doc._id⟩

/-! ## Specification-side definitions -/

/-- The text of a document that the index builder keeps, as the spec words
it: the file is present, extraction succeeds and the text is not blank. -/
def keptText (env : Env) (doc : DocumentRecord) : Option String :=
  if env.existsSync (env.pathJoin env.uploadsDir doc.storedFilename) then
    match extractTextFromFile env (env.pathJoin env.uploadsDir doc.storedFilename)
        doc.mimeType with
    | .ok fullText => if isBlank fullText then none else some fullText
    | .error _ => none
  else none

/-- The chunks of the documents that are not skipped, in document list order
and, within a document, in the splitter's chunk order. -/
def keptChunks (env : Env) (docs : List DocumentRecord) : List Document :=
  docs.flatMap fun d =>
    match keptText env d with
    | some fullText => chunksOf env d fullText
    | none => []

/-- Extraction of a document does not throw: its file is absent or the
extractor returns a text. -/
def Extractable (env : Env) (doc : DocumentRecord) : Prop :=
  env.existsSync (env.pathJoin env.uploadsDir doc.storedFilename) = true →
    ∃ fullText, extractTextFromFile env (env.pathJoin env.uploadsDir doc.storedFilename)
      doc.mimeType = .ok fullText

/-- The `sources` array of a response body, empty for bodies without one. -/
def Body.sourcesOf : Body → List Source
  | .sources _ ss => ss
  | .answer _ _ ss => ss
  | _ => []

/-- The entry that `addVectors` stores for a vector and its document. -/
def pairEntry (embedding : List Int) (d : Document) : MemoryVector :=
  ⟨d.pageContent, embedding, d.metadata⟩

/-- The chunk texts of the documents that are not skipped, one block per
document, in document list order; each block is in the splitter's order. -/
def chunkBlocks (env : Env) (docs : List DocumentRecord) : List (List String) :=
  (docs.filterMap (keptText env)).map (env.splitText 500 100)

/-- The normalisation as the spec words it for an array `res`: `res[0]` with
every element coerced by `Number` when `res[0]` is an array, and `res` itself
so coerced otherwise. -/
def normalized (env : Env) (res : List JsVal) : List Int :=
  match res.head? with
  | some (.arr row) => row.map (jsNumber env)
  | _ => res.map (jsNumber env)

/-- The page texts joined in page order with a blank line between two pages,
as the spec words the PDF case. -/
def joinPages : List String → String
  | [] => ""
  | [p] => p
  | p :: q :: rest => p ++ "\n\n" ++ joinPages (q :: rest)

/-! ## The chunker of the specification -/

/-- Modelled from the spec: the paragraph boundary of section 4.2 (the splitter
is LangChain `RecursiveCharacterTextSplitter`, whose source is not part of the
repository): the text read so far ends with a blank line. -/
def endsParagraph (l : List Char) : Bool :=
  "\n\n".data.isSuffixOf l

/-- Modelled from the spec: the sentence boundary of section 4.2: the text read
so far ends with a full stop, question mark or exclamation mark followed by a
space, or with a line break. -/
def endsSentence (l : List Char) : Bool :=
  ". ".data.isSuffixOf l || "? ".data.isSuffixOf l || "! ".data.isSuffixOf l ||
    "\n".data.isSuffixOf l

/-- Modelled from the spec: the last position `n` of the window, beyond the
overlap `O`, at which the boundary test `p` holds for the first `n`
characters. -/
def lastCut (p : List Char → Bool) (O : Nat) (window : List Char) : Option Nat :=
  (List.range (window.length + 1)).reverse.find? fun n => decide (O < n) && p (window.take n)

/-- Modelled from the spec: the length of the chunk cut from a window of `C`
characters, "preferring the largest natural boundary (paragraph, then
sentence, then arbitrary character) that keeps each chunk ≤ C". -/
def cutLength (O : Nat) (window : List Char) : Nat :=
  match lastCut endsParagraph O window with
  | some n => n
  | none =>
    match lastCut endsSentence O window with
    | some n => n
    | none => window.length

/-- Modelled from the spec: the chunker of section 4.2 on a list of characters,
with a bound on the number of cuts: a text of at most `C` characters is one
chunk; otherwise a chunk is cut from the first `C` characters and the next
chunk starts `O` characters before its end ("each chunk after the first
repeats the trailing O characters of the previous chunk"). -/
def splitFuel (C O : Nat) : Nat → List Char → List (List Char)
  | 0, text => [text]
  | fuel + 1, text =>
    if text.length ≤ C then [text]
    else
      let n := cutLength O (text.take C)
      text.take n :: splitFuel C O fuel (text.drop (n - O))

/-- Modelled from the spec: the chunker of section 4.2 for chunk size `C` and
overlap `O`; blank text gives no chunk ("empty or whitespace-only text
fails"). Every cut removes at least one character, so `text.length` cuts
suffice. -/
def chunker (C O : Nat) (text : String) : List String :=
  if isBlank text then []
  else (splitFuel C O text.length text.data).map String.mk

/-! ## A concrete world for evaluation -/

/-- The collection. User `u1` owns three ready text documents (the third,
`d5`, has no file on disk) and `d4`, still in status `uploaded`; `u2` owns one
ready document; `u3` owns a ready PDF that the loader rejects and a ready text
document; `u4` owns a ready document of blank text and one without a file;
`u5` owns nothing. -/
def demoDocuments : List DocumentRecord :=
  [⟨⟨"d1"⟩, ⟨"u1"⟩, "a.txt", "1-a.txt", "text/plain", 5, .ready⟩,
   ⟨⟨"d2"⟩, ⟨"u1"⟩, "b.txt", "2-b.txt", "text/plain", 2, .ready⟩,
   ⟨⟨"d3"⟩, ⟨"u2"⟩, "c.txt", "3-c.txt", "text/plain", 3, .ready⟩,
   ⟨⟨"d4"⟩, ⟨"u1"⟩, "d.txt", "4-d.txt", "text/plain", 4, .uploaded⟩,
   ⟨⟨"d5"⟩, ⟨"u1"⟩, "e.txt", "5-e.txt", "text/plain", 1, .ready⟩,
   ⟨⟨"d6"⟩, ⟨"u3"⟩, "f.pdf", "6-f.pdf", "application/pdf", 4, .ready⟩,
   ⟨⟨"d7"⟩, ⟨"u3"⟩, "h.txt", "8-h.txt", "text/plain", 2, .ready⟩,
   ⟨⟨"d8"⟩, ⟨"u4"⟩, "g.txt", "7-g.txt", "text/plain", 2, .ready⟩,
   ⟨⟨"d9"⟩, ⟨"u4"⟩, "i.txt", "9-i.txt", "text/plain", 2, .ready⟩]

/-- The files under the uploads directory: path and bytes. -/
def demoFiles : List (String × List Nat) :=
  [("/app/uploads/1-a.txt", [104, 101, 108, 108, 111]),
   ("/app/uploads/2-b.txt", [104, 105]),
   ("/app/uploads/3-c.txt", [97, 98, 99]),
   ("/app/uploads/4-d.txt", [119, 120, 121, 122]),
   ("/app/uploads/6-f.pdf", [37, 80, 68, 70]),
   ("/app/uploads/7-g.txt", [32, 10]),
   ("/app/uploads/8-h.txt", [111, 107])]

/-- A provider that embeds a text as `[length, 1]`, one row per input. -/
def demoProvider (req : HfRequest) : Except JsError JsVal :=
  match req.inputs with
  | .one t => .ok (.arr [.num t.length, .num 1])
  | .many ts => .ok (.arr (ts.map fun t => .arr [.num t.length, .num 1]))

/-- A provider that answers every batch with a single row. -/
def shortProvider (req : HfRequest) : Except JsError JsVal :=
  match req.inputs with
  | .one t => .ok (.arr [.num t.length, .num 1])
  | .many _ => .ok (.arr [.arr [.num 7, .num 1]])

/-- The dot product, standing in for the similarity of the store. -/
def dot : List Int → List Int → Int
  | a :: as, b :: bs => a * b + dot as bs
  | _, _ => 0

/-- The concrete world: the splitter returns the text as a single chunk. -/
def demoEnv : Env where
  documents := demoDocuments
  uploadsDir := "/app/uploads"
  pathJoin := fun a b => a ++ "/" ++ b
  existsSync := fun p => demoFiles.any fun f => f.1 = p
  readFileSync := fun p =>
    match demoFiles.find? fun f => f.1 = p with
    | some f => .ok f.2
    | none => .error ⟨"ENOENT: no such file or directory"⟩
  utf8 := fun bytes => String.mk (bytes.map Char.ofNat)
  pdfLoad := fun _ => .error ⟨"Invalid PDF structure"⟩
  splitText := fun _ _ t => [t]
  processEnv := fun v => if v = "HF_API_KEY" then some "hf_key" else none
  featureExtraction := demoProvider
  numberOfOther := fun _ => 0
  similarity := dot
  fetchChat := fun _ => .ok ⟨true, 200, "", .ok (some "answer")⟩
  queryCreate := fun _ => .ok ()

/-- The concrete world with the provider that returns one row per batch. -/
def shortEnv : Env :=
  { demoEnv with featureExtraction := shortProvider }

/-- The concrete world with a splitter that cuts a text after three
characters into two chunks. -/
def twoChunkEnv : Env :=
  { demoEnv with
    splitText := fun _ _ t => [String.mk (t.data.take 3), String.mk (t.data.drop 3)] }

/-- The concrete world without any credential in `process.env`, except the
key of the chat endpoint. -/
def noKeyEnv : Env :=
  { demoEnv with
    processEnv := fun v => if v = "OPENROUTER_API_KEY" then some "or_key" else none }

/-- The concrete world of `demoEnv` with the key of the chat endpoint set. -/
def chatEnv : Env :=
  { demoEnv with
    processEnv := fun v =>
      if v = "HF_API_KEY" then some "hf_key"
      else if v = "OPENROUTER_API_KEY" then some "or_key" else none }

/-- The concrete world of `chatEnv` with a provider that rejects every
request. -/
def failingEnv : Env :=
  { chatEnv with featureExtraction := fun _ => .error ⟨"503 Service Unavailable"⟩ }

/-- A provider that answers every batch with two rows of different
dimension. -/
def raggedProvider (req : HfRequest) : Except JsError JsVal :=
  match req.inputs with
  | .one t => .ok (.arr [.num t.length, .num 1])
  | .many _ => .ok (.arr [.arr [.num 1, .num 2], .arr [.num 3]])

/-- The concrete world with the provider of ragged rows. -/
def raggedEnv : Env :=
  { demoEnv with featureExtraction := raggedProvider }

/-- The concrete world whose splitter is the chunker of the specification. -/
def specEnv : Env :=
  { demoEnv with splitText := chunker }

/-- A text of 600 characters without any paragraph or sentence boundary. -/
def longText : String :=
  String.mk (List.replicate 600 (Char.ofNat 97))

/-- A text of 200 characters outside the Basic Multilingual Plane (U+1F600),
each of two UTF-16 code units. -/
def emojiText : String :=
  String.mk (List.replicate 200 (Char.ofNat 0x1F600))

/-! ## Lemmas: helpers -/

theorem mapThrowing_ok_iff {α β : Type} (f : α → Except JsError β) (xs : List α)
    (ys : List β) :
    mapThrowing f xs = .ok ys ↔ List.Forall₂ (fun x y => f x = .ok y) xs ys := by
  induction xs generalizing ys with
  | nil =>
    cases ys with
    | nil => simp [mapThrowing]
    | cons y ys => simp [mapThrowing]
  | cons x xs ih =>
    cases hfx : f x with
    | error e =>
      simp only [mapThrowing, hfx]
      constructor
      · intro h; cases h
      · intro h
        cases h with
        | cons h1 _ => rw [hfx] at h1; cases h1
    | ok y =>
      cases hrest : mapThrowing f xs with
      | error e =>
        simp only [mapThrowing, hfx, hrest]
        constructor
        · intro h; cases h
        · intro h
          cases h with
          | cons h1 h2 =>
            have := (ih _).mpr h2
            rw [hrest] at this; cases this
      | ok zs =>
        simp only [mapThrowing, hfx, hrest]
        have hz := (ih zs).mp hrest
        constructor
        · intro h
          cases h
          exact List.Forall₂.cons hfx hz
        · intro h
          cases h with
          | cons h1 h2 =>
            rw [hfx] at h1
            cases h1
            have := (ih _).mpr h2
            rw [hrest] at this
            cases this
            rfl

theorem normalizeVec_isArray (env : Env) (vec : JsVal) (h : isArray vec = true) :
    ∃ v, normalizeVec env vec = .ok v := by
  cases vec with
  | arr xs =>
    cases xs with
    | nil => exact ⟨_, rfl⟩
    | cons x xs =>
      cases x <;> exact ⟨_, rfl⟩
  | _ => simp [isArray] at h

theorem mapThrowing_total {α β : Type} (f : α → Except JsError β) (xs : List α)
    (h : ∀ x ∈ xs, ∃ y, f x = .ok y) : ∃ ys, mapThrowing f xs = .ok ys := by
  induction xs with
  | nil => exact ⟨[], rfl⟩
  | cons x xs ih =>
    obtain ⟨y, hy⟩ := h x (List.mem_cons_self _ _)
    obtain ⟨ys, hys⟩ := ih fun z hz => h z (List.mem_cons_of_mem _ hz)
    exact ⟨y :: ys, by simp [mapThrowing, hy, hys]⟩

/-! ## Lemmas: the collection loop -/

theorem collectChunks_ok (env : Env) (docs : List DocumentRecord) (acc out : List Document)
    (h : collectChunks env docs acc = .ok out) : out = acc ++ keptChunks env docs := by
  induction docs generalizing acc with
  | nil =>
    simp only [collectChunks] at h
    cases h
    simp [keptChunks]
  | cons d rest ih =>
    simp only [collectChunks] at h
    cases hex : env.existsSync (env.pathJoin env.uploadsDir d.storedFilename) with
    | false =>
      simp only [hex, Bool.not_false, if_true] at h
      rw [ih acc h]
      simp [keptChunks, keptText, hex]
    | true =>
      simp only [hex, Bool.not_true, Bool.false_eq_true, if_false] at h
      cases htx : extractTextFromFile env (env.pathJoin env.uploadsDir d.storedFilename)
          d.mimeType with
      | error e => rw [htx] at h; cases h
      | ok fullText =>
        rw [htx] at h
        simp only at h
        cases hb : isBlank fullText with
        | true =>
          simp only [hb, if_true] at h
          rw [ih acc h]
          simp [keptChunks, keptText, hex, htx, hb]
        | false =>
          simp only [hb, Bool.false_eq_true, if_false] at h
          rw [ih _ h]
          simp [keptChunks, keptText, hex, htx, hb]

theorem collectChunks_of_extractable (env : Env) (docs : List DocumentRecord)
    (acc : List Document) (h : ∀ d ∈ docs, Extractable env d) :
    collectChunks env docs acc = .ok (acc ++ keptChunks env docs) := by
  induction docs generalizing acc with
  | nil => simp [collectChunks, keptChunks]
  | cons d rest ih =>
    have hrest : ∀ x ∈ rest, Extractable env x := fun x hx => h x (List.mem_cons_of_mem _ hx)
    simp only [collectChunks]
    cases hex : env.existsSync (env.pathJoin env.uploadsDir d.storedFilename) with
    | false =>
      simp only [Bool.not_false, if_true]
      rw [ih acc hrest]
      simp [keptChunks, keptText, hex]
    | true =>
      obtain ⟨fullText, htx⟩ := h d (List.mem_cons_self _ _) hex
      simp only [Bool.not_true, Bool.false_eq_true, if_false, htx]
      cases hb : isBlank fullText with
      | true =>
        simp only [if_true]
        rw [ih acc hrest]
        simp [keptChunks, keptText, hex, htx, hb]
      | false =>
        simp only [Bool.false_eq_true, if_false]
        rw [ih _ hrest]
        simp [keptChunks, keptText, hex, htx, hb]

theorem mem_keptChunks (env : Env) (docs : List DocumentRecord) (c : Document)
    (h : c ∈ keptChunks env docs) :
    ∃ d ∈ docs, ∃ fullText, keptText env d = some fullText ∧ c ∈ chunksOf env d fullText := by
  simp only [keptChunks, List.mem_flatMap] at h
  obtain ⟨d, hd, hc⟩ := h
  cases hk : keptText env d with
  | none => rw [hk] at hc; simp at hc
  | some t => rw [hk] at hc; exact ⟨d, hd, t, hk, hc⟩

theorem chunksOf_metadata (env : Env) (d : DocumentRecord) (t : String) (c : Document)
    (h : c ∈ chunksOf env d t) : c.metadata = ⟨d._id.toString, d.originalName⟩ := by
  simp only [chunksOf, List.mem_map] at h
  obtain ⟨_, _, rfl⟩ := h
  rfl

theorem mem_findReady (env : Env) (userId : ObjectId) (d : DocumentRecord) :
    d ∈ findReady env userId ↔ d ∈ env.documents ∧ d.userId = userId ∧ d.status = .ready := by
  simp [findReady, List.mem_filter]

/-! ## Lemmas: pairing vectors with chunks -/

theorem addVectors_of_le (vectors : List (List Int)) (documents : List Document)
    (h : vectors.length ≤ documents.length) :
    addVectors vectors documents = .ok (List.zipWith pairEntry vectors documents) := by
  induction vectors generalizing documents with
  | nil => simp [addVectors]
  | cons v vs ih =>
    cases documents with
    | nil => simp at h
    | cons d ds =>
      have h2 : vs.length ≤ ds.length := by simpa using h
      simp [addVectors, ih ds h2, pairEntry]

theorem addVectors_of_gt (vectors : List (List Int)) (documents : List Document)
    (h : documents.length < vectors.length) :
    addVectors vectors documents =
      .error (typeError "Cannot read properties of undefined (reading pageContent)") := by
  induction vectors generalizing documents with
  | nil => simp at h
  | cons v vs ih =>
    cases documents with
    | nil => simp [addVectors]
    | cons d ds =>
      have h2 : ds.length < vs.length := by simpa using h
      simp [addVectors, ih ds h2]

theorem addVectors_ok (vectors : List (List Int)) (documents : List Document)
    (mvs : List MemoryVector) (h : addVectors vectors documents = .ok mvs) :
    vectors.length ≤ documents.length ∧ mvs = List.zipWith pairEntry vectors documents := by
  by_cases hle : vectors.length ≤ documents.length
  · rw [addVectors_of_le _ _ hle] at h
    cases h
    exact ⟨hle, rfl⟩
  · rw [addVectors_of_gt _ _ (by omega)] at h
    cases h

theorem mem_zipWith_pairEntry (vectors : List (List Int)) (documents : List Document)
    (mv : MemoryVector) (h : mv ∈ List.zipWith pairEntry vectors documents) :
    ∃ d ∈ documents, mv.content = d.pageContent ∧ mv.metadata = d.metadata := by
  induction vectors generalizing documents with
  | nil => simp at h
  | cons v vs ih =>
    cases documents with
    | nil => simp at h
    | cons d ds =>
      simp only [List.zipWith_cons_cons, List.mem_cons] at h
      rcases h with h | h
      · exact ⟨d, List.mem_cons_self _ _, by rw [h]; rfl, by rw [h]; rfl⟩
      · obtain ⟨d2, hd2, hc⟩ := ih ds h
        exact ⟨d2, List.mem_cons_of_mem _ hd2, hc⟩

/-! ## Lemmas: the index builder -/

theorem build_ok_inv (env : Env) (userId : ObjectId) (store : MemoryVectorStore)
    (h : (buildVectorStoreForUser env userId).result = .ok store) :
    findReady env userId ≠ [] ∧ keptChunks env (findReady env userId) ≠ [] ∧
    collectChunks env (findReady env userId) [] = .ok (keptChunks env (findReady env userId)) ∧
    ∃ vectors,
      ((embeddings env).embedDocuments env
        ((keptChunks env (findReady env userId)).map fun d => d.pageContent)).result
        = .ok vectors ∧
      vectors.length ≤ (keptChunks env (findReady env userId)).length ∧
      store.memoryVectors =
        List.zipWith pairEntry vectors (keptChunks env (findReady env userId)) := by
  unfold buildVectorStoreForUser at h
  simp only at h
  by_cases h0 : (findReady env userId).length = 0
  · rw [if_pos h0] at h; cases h
  · rw [if_neg h0] at h
    cases hc : collectChunks env (findReady env userId) [] with
    | error e => rw [hc] at h; cases h
    | ok allDocs =>
      rw [hc] at h
      simp only at h
      have hall := collectChunks_ok env _ _ _ hc
      simp only [List.nil_append] at hall
      subst hall
      by_cases h1 : (keptChunks env (findReady env userId)).length = 0
      · rw [if_pos h1] at h; cases h
      · rw [if_neg h1] at h
        simp only [MemoryVectorStore.fromDocuments] at h
        cases he : ((embeddings env).embedDocuments env
            ((keptChunks env (findReady env userId)).map fun d => d.pageContent)).result with
        | error e => rw [he] at h; cases h
        | ok vectors =>
          rw [he] at h
          simp only at h
          cases ha : addVectors vectors (keptChunks env (findReady env userId)) with
          | error e => rw [ha] at h; cases h
          | ok mvs =>
            rw [ha] at h
            simp only at h
            cases h
            obtain ⟨hle, hz⟩ := addVectors_ok _ _ _ ha
            refine ⟨?_, ?_, rfl, vectors, rfl, hle, hz⟩
            · intro hnil; exact h0 (by rw [hnil]; rfl)
            · intro hnil; exact h1 (by rw [hnil]; rfl)

theorem build_entry_origin (env : Env) (userId : ObjectId) (store : MemoryVectorStore)
    (h : (buildVectorStoreForUser env userId).result = .ok store) (mv : MemoryVector)
    (hmv : mv ∈ store.memoryVectors) :
    ∃ d ∈ findReady env userId, ∃ fullText, keptText env d = some fullText ∧
      mv.content ∈ env.splitText 500 100 fullText ∧
      mv.metadata = ⟨d._id.toString, d.originalName⟩ := by
  obtain ⟨_, _, _, vectors, _, _, hz⟩ := build_ok_inv env userId store h
  rw [hz] at hmv
  obtain ⟨c, hc, hcontent, hmeta⟩ := mem_zipWith_pairEntry _ _ _ hmv
  obtain ⟨d, hd, t, hk, hct⟩ := mem_keptChunks env _ c hc
  refine ⟨d, hd, t, hk, ?_, ?_⟩
  · rw [hcontent]
    simp only [chunksOf, List.mem_map] at hct
    obtain ⟨x, hx, rfl⟩ := hct
    exact hx
  · rw [hmeta]; exact chunksOf_metadata env d t c hct

/-! ## Lemmas: ranking -/

theorem length_insertRanked (x : Document × Int) (l : List (Document × Int)) :
    (insertRanked x l).length = l.length + 1 := by
  induction l with
  | nil => rfl
  | cons y ys ih =>
    simp only [insertRanked]
    split <;> simp [ih]

theorem length_sortRanked (l : List (Document × Int)) :
    (sortRanked l).length = l.length := by
  induction l with
  | nil => rfl
  | cons x xs ih => simp [sortRanked, length_insertRanked, ih]

theorem perm_insertRanked (x : Document × Int) (l : List (Document × Int)) :
    (insertRanked x l).Perm (x :: l) := by
  induction l with
  | nil => exact List.Perm.refl _
  | cons y ys ih =>
    simp only [insertRanked]
    split
    · exact List.Perm.refl _
    · exact (List.Perm.cons y ih).trans (List.Perm.swap x y ys)

theorem perm_sortRanked (l : List (Document × Int)) : (sortRanked l).Perm l := by
  induction l with
  | nil => exact List.Perm.refl _
  | cons x xs ih =>
    exact (perm_insertRanked x (sortRanked xs)).trans (List.Perm.cons x ih)

theorem pairwise_insertRanked (x : Document × Int) (l : List (Document × Int))
    (h : l.Pairwise fun a b => b.2 ≤ a.2) :
    (insertRanked x l).Pairwise fun a b => b.2 ≤ a.2 := by
  induction l with
  | nil => simp [insertRanked]
  | cons y ys ih =>
    simp only [insertRanked]
    rw [List.pairwise_cons] at h
    split
    · rename_i hyx
      rw [List.pairwise_cons]
      refine ⟨?_, List.pairwise_cons.mpr h⟩
      intro z hz
      rcases List.mem_cons.mp hz with rfl | hz
      · exact hyx
      · exact le_trans (h.1 z hz) hyx
    · rename_i hyx
      rw [List.pairwise_cons]
      refine ⟨?_, ih h.2⟩
      intro z hz
      have hz2 := (perm_insertRanked x ys).subset hz
      rcases List.mem_cons.mp hz2 with rfl | hz2
      · exact le_of_lt (not_le.mp hyx)
      · exact h.1 z hz2

theorem pairwise_sortRanked (l : List (Document × Int)) :
    (sortRanked l).Pairwise fun a b => b.2 ≤ a.2 := by
  induction l with
  | nil => simp [sortRanked]
  | cons x xs ih => exact pairwise_insertRanked x _ ih

/-! ## Lemmas: the query -/

theorem query_ok_inv (env : Env) (userId : ObjectId) (question : String) (k : Nat)
    (documentId : Option String) (results : List Document)
    (h : (queryUserDocuments env userId question k documentId).result = .ok results) :
    ∃ store vec,
      (buildVectorStoreForUser env userId).result = .ok store ∧
      ((embeddings env).embedQuery env question).result = .ok vec ∧
      results = (store.similaritySearchVectorWithScore env vec k).map Prod.fst := by
  unfold queryUserDocuments at h
  simp only at h
  cases hb : (buildVectorStoreForUser env userId).result with
  | error e => rw [hb] at h; cases h
  | ok store =>
    rw [hb] at h
    simp only [MemoryVectorStore.similaritySearch] at h
    cases hq : ((embeddings env).embedQuery env question).result with
    | error e => rw [hq] at h; cases h
    | ok vec =>
      rw [hq] at h
      simp only at h
      cases h
      exact ⟨store, vec, rfl, rfl, rfl⟩

theorem length_ranked_le (env : Env) (store : MemoryVectorStore) (vec : List Int) (k : Nat) :
    (store.similaritySearchVectorWithScore env vec k).length ≤ k := by
  simp only [MemoryVectorStore.similaritySearchVectorWithScore, List.length_take]
  exact Nat.min_le_left _ _

theorem query_length_le (env : Env) (userId : ObjectId) (question : String) (k : Nat)
    (documentId : Option String) (results : List Document)
    (h : (queryUserDocuments env userId question k documentId).result = .ok results) :
    results.length ≤ k := by
  obtain ⟨store, vec, _, _, hr⟩ := query_ok_inv env userId question k documentId results h
  rw [hr, List.length_map]
  exact length_ranked_le env store vec k

theorem length_toSources (results : List Document) :
    (toSources results).length = results.length := by
  simp [toSources]

theorem postQuery_sources_le (env : Env) (userId : ObjectId) (question : Option String) :
    (Body.sourcesOf (postQuery env userId question).response.body).length ≤ 5 := by
  unfold postQuery
  cases question with
  | none => simp [Body.sourcesOf]
  | some q =>
    simp only
    split
    · simp [Body.sourcesOf]
    · cases hr : (queryUserDocuments env userId q 5 none).result with
      | error e => simp [Body.sourcesOf]
      | ok results =>
        simp only [Body.sourcesOf, length_toSources]
        exact query_length_le env userId q 5 none results hr

theorem postAnswer_sources_le (env : Env) (userId : ObjectId)
    (question documentId : Option String) :
    (Body.sourcesOf (postAnswer env userId question documentId).response.body).length ≤ 5 := by
  unfold postAnswer
  cases question with
  | none => simp [Body.sourcesOf]
  | some q =>
    simp only
    split
    · simp [Body.sourcesOf]
    · split
      · simp [Body.sourcesOf]
      · cases hr : (queryUserDocuments env userId q 5 (jsOr documentId none)).result with
        | error e => simp [Body.sourcesOf]
        | ok results =>
          have hlen := query_length_le env userId q 5 _ results hr
          simp only
          split
          · simp [Body.sourcesOf]
          · split
            · simp [Body.sourcesOf]
            · split
              · simp [Body.sourcesOf]
              · split
                · simp [Body.sourcesOf]
                · split <;> simpa [Body.sourcesOf, length_toSources] using hlen

/-! ## C1: the document filter -/

/-- C1, evaluated on the code: user `u1` has the ready documents `d1` ("hello")
and `d2` ("hi"); the query restricted to `documentId = "d2"` returns the chunk
of `d1` as well, ranked first, because `queryUserDocuments` never reads its
`documentId` parameter. -/
theorem queryUserDocuments_ignores_documentId :
    (queryUserDocuments demoEnv ⟨"u1"⟩ "hey" 5 (some "d2")).result =
      .ok [⟨"hello", ⟨"d1", "a.txt"⟩⟩, ⟨"hi", ⟨"d2", "b.txt"⟩⟩] := by
  rfl

/-! ## C2: at most `k` results, best first -/

/-- C2: every result list returned by `queryUserDocuments` has at most `k`
entries and is the ranking of entries of the built index by non-increasing
similarity to the embedded question; the bodies of `/rag/query` and
`/rag/answer`, which pass `k = 5`, hold at most 5 sources. -/
theorem queryUserDocuments_at_most_k_sorted (env : Env) (userId : ObjectId)
    (question : String) (k : Nat) (documentId : Option String) (results : List Document)
    (h : (queryUserDocuments env userId question k documentId).result = .ok results) :
    results.length ≤ k ∧
    (∃ store vec,
      (buildVectorStoreForUser env userId).result = .ok store ∧
      ((embeddings env).embedQuery env question).result = .ok vec ∧
      results = (store.similaritySearchVectorWithScore env vec k).map Prod.fst ∧
      ((store.similaritySearchVectorWithScore env vec k).map Prod.snd).Pairwise
        (fun a b => b ≤ a) ∧
      ∀ p ∈ store.similaritySearchVectorWithScore env vec k,
        ∃ v ∈ store.memoryVectors,
          p = (⟨v.content, v.metadata⟩, env.similarity vec v.embedding)) ∧
    (∀ q, (Body.sourcesOf (postQuery env userId q).response.body).length ≤ 5) ∧
    (∀ q X, (Body.sourcesOf (postAnswer env userId q X).response.body).length ≤ 5) := by
  refine ⟨query_length_le env userId question k documentId results h, ?_,
    postQuery_sources_le env userId, postAnswer_sources_le env userId⟩
  obtain ⟨store, vec, hb, hq, hr⟩ := query_ok_inv env userId question k documentId results h
  refine ⟨store, vec, hb, hq, hr, ?_, ?_⟩
  · rw [List.pairwise_map]
    exact (pairwise_sortRanked _).sublist (List.take_sublist _ _)
  · intro p hp
    have hp2 := (perm_sortRanked _).subset (List.mem_of_mem_take hp)
    obtain ⟨v, hv, rfl⟩ := List.mem_map.mp hp2
    exact ⟨v, hv, rfl⟩

/-- C2 at a concrete input: the query of user `u1` with `k = 1`. -/
theorem queryUserDocuments_at_most_k_sorted_witness :
    (queryUserDocuments demoEnv ⟨"u1"⟩ "hey" 1 none).result =
        .ok [⟨"hello", ⟨"d1", "a.txt"⟩⟩] ∧
    ([⟨"hello", ⟨"d1", "a.txt"⟩⟩] : List Document).length ≤ 1 :=
  ⟨rfl, (queryUserDocuments_at_most_k_sorted demoEnv ⟨"u1"⟩ "hey" 1 none
    [⟨"hello", ⟨"d1", "a.txt"⟩⟩] rfl).1⟩

/-! ## C3: documents that are not ready -/

/-- C3: when document ids are unique in the collection, no entry of an index
built by `buildVectorStoreForUser` carries the id of a document whose status
is not `ready`. -/
theorem build_excludes_not_ready (env : Env) (userId : ObjectId) (store : MemoryVectorStore)
    (D : DocumentRecord)
    (hbuild : (buildVectorStoreForUser env userId).result = .ok store)
    (hD : D ∈ env.documents) (hstatus : D.status ≠ Status.ready)
    (hids : (env.documents.map fun d => d._id).Nodup) :
    ∀ mv ∈ store.memoryVectors, mv.metadata.documentId ≠ D._id.toString := by
  intro mv hmv heq
  obtain ⟨d, hd, _, _, _, hmeta⟩ := build_entry_origin env userId store hbuild mv hmv
  obtain ⟨hdmem, _, hready⟩ := (mem_findReady env userId d).mp hd
  rw [hmeta] at heq
  have hid : d._id = D._id := by
    cases hx : d._id
    cases hy : D._id
    rw [hx, hy] at heq
    simp only [ObjectId.toString] at heq
    rw [heq]
  have := List.inj_on_of_nodup_map hids hdmem hD hid
  exact hstatus (this ▸ hready)

/-- C3 at a concrete input: `d4` of user `u1` is still `uploaded` and no entry
of the index built for `u1` carries its id. -/
theorem build_excludes_not_ready_witness :
    (buildVectorStoreForUser demoEnv ⟨"u1"⟩).result =
      .ok ⟨[⟨"hello", [5, 1], ⟨"d1", "a.txt"⟩⟩, ⟨"hi", [2, 1], ⟨"d2", "b.txt"⟩⟩]⟩ ∧
    ([⟨"hello", [5, 1], ⟨"d1", "a.txt"⟩⟩, ⟨"hi", [2, 1], ⟨"d2", "b.txt"⟩⟩] :
      List MemoryVector).all (fun mv => mv.metadata.documentId != "d4") = true :=
  ⟨rfl, List.all_eq_true.mpr fun mv hmv => by
    simpa [ObjectId.toString] using build_excludes_not_ready demoEnv ⟨"u1"⟩
      ⟨[⟨"hello", [5, 1], ⟨"d1", "a.txt"⟩⟩, ⟨"hi", [2, 1], ⟨"d2", "b.txt"⟩⟩]⟩
      ⟨⟨"d4"⟩, ⟨"u1"⟩, "d.txt", "4-d.txt", "text/plain", 4, .uploaded⟩
      rfl (by decide) (by decide) (by decide) mv hmv⟩

/-! ## C4: tenant isolation -/

theorem collectChunks_documents (env : Env) (others : List DocumentRecord)
    (docs : List DocumentRecord) (acc : List Document) :
    collectChunks { env with documents := others } docs acc = collectChunks env docs acc := by
  induction docs generalizing acc with
  | nil => rfl
  | cons d rest ih =>
    simp only [collectChunks, extractTextFromFile, chunksOf, ih]

theorem build_documents (env : Env) (others : List DocumentRecord) (userId : ObjectId)
    (hagree : findReady { env with documents := others } userId = findReady env userId) :
    buildVectorStoreForUser { env with documents := others } userId =
      buildVectorStoreForUser env userId := by
  unfold buildVectorStoreForUser
  simp only [hagree, collectChunks_documents]
  rfl

/-- C4: every entry of the index built for `userId` is a chunk of a ready
document owned by `userId`, and replacing the collection by any other one
with the same ready documents of `userId` changes neither the provider
requests (the chunk texts submitted for embedding) nor the result. -/
theorem build_tenant_isolation (env : Env) (others : List DocumentRecord)
    (userId : ObjectId)
    (hagree : findReady { env with documents := others } userId = findReady env userId) :
    (∀ store, (buildVectorStoreForUser env userId).result = .ok store →
      ∀ mv ∈ store.memoryVectors, ∃ d ∈ env.documents, d.userId = userId ∧
        mv.metadata = ⟨d._id.toString, d.originalName⟩ ∧
        ∃ fullText, keptText env d = some fullText ∧
          mv.content ∈ env.splitText 500 100 fullText) ∧
    (buildVectorStoreForUser { env with documents := others } userId).calls =
      (buildVectorStoreForUser env userId).calls ∧
    (buildVectorStoreForUser { env with documents := others } userId).result =
      (buildVectorStoreForUser env userId).result := by
  refine ⟨?_, ?_, ?_⟩
  · intro store hb mv hmv
    obtain ⟨d, hd, t, hk, hc, hmeta⟩ := build_entry_origin env userId store hb mv hmv
    obtain ⟨hdmem, huser, _⟩ := (mem_findReady env userId d).mp hd
    exact ⟨d, hdmem, huser, hmeta, t, hk, hc⟩
  · rw [build_documents env others userId hagree]
  · rw [build_documents env others userId hagree]

/-- C4 at a concrete input: the documents of `u2`, `u3` and `u4` are dropped and
a document of a new user is added; the requests issued for `u1` are the same. -/
theorem build_tenant_isolation_witness :
    (buildVectorStoreForUser { demoEnv with documents :=
        [⟨⟨"d1"⟩, ⟨"u1"⟩, "a.txt", "1-a.txt", "text/plain", 5, .ready⟩,
         ⟨⟨"d9"⟩, ⟨"u9"⟩, "z.txt", "3-c.txt", "text/plain", 3, .ready⟩,
         ⟨⟨"d2"⟩, ⟨"u1"⟩, "b.txt", "2-b.txt", "text/plain", 2, .ready⟩,
         ⟨⟨"d5"⟩, ⟨"u1"⟩, "e.txt", "5-e.txt", "text/plain", 1, .ready⟩] } ⟨"u1"⟩).calls =
      (buildVectorStoreForUser demoEnv ⟨"u1"⟩).calls :=
  (build_tenant_isolation demoEnv
    [⟨⟨"d1"⟩, ⟨"u1"⟩, "a.txt", "1-a.txt", "text/plain", 5, .ready⟩,
     ⟨⟨"d9"⟩, ⟨"u9"⟩, "z.txt", "3-c.txt", "text/plain", 3, .ready⟩,
     ⟨⟨"d2"⟩, ⟨"u1"⟩, "b.txt", "2-b.txt", "text/plain", 2, .ready⟩,
     ⟨⟨"d5"⟩, ⟨"u1"⟩, "e.txt", "5-e.txt", "text/plain", 1, .ready⟩] ⟨"u1"⟩ rfl).2.1

/-! ## C5: `embedDocuments` follows the provider response -/

/-- C5 as stated fails: for the two texts `"hello"` and `"hi"` and a provider
that answers with a single row, `embedDocuments` returns one vector. -/
theorem embedDocuments_length_counterexample :
    ((embeddings shortEnv).embedDocuments shortEnv ["hello", "hi"]).result = .ok [[7, 1]] ∧
    ([[7, 1]] : List (List Int)).length ≠ (["hello", "hi"] : List String).length :=
  ⟨rfl, by decide⟩

/-- C5 amended: when the provider answers the batch with an array of rows
that are arrays, `embedDocuments` returns one vector per row of the response,
the `i`-th being the normalisation of the `i`-th row; so its length is the
number of input texts whenever the provider returns one row per text. -/
theorem embedDocuments_follows_response (env : Env) (self : HFCustomEmbeddings)
    (texts : List String) (res : List JsVal)
    (hres : env.featureExtraction ⟨self.apiKey, self.model, .many texts⟩ = .ok (.arr res))
    (hrows : ∀ r ∈ res, isArray r = true) :
    ∃ vs, (self.embedDocuments env texts).result = .ok vs ∧
      vs.length = res.length ∧
      (∀ i (h1 : i < res.length) (h2 : i < vs.length),
        normalizeVec env (res.get ⟨i, h1⟩) = .ok (vs.get ⟨i, h2⟩)) ∧
      (res.length = texts.length → vs.length = texts.length) := by
  obtain ⟨vs, hvs⟩ := mapThrowing_total (normalizeVec env) res
    fun r hr => normalizeVec_isArray env r (hrows r hr)
  have hf := (mapThrowing_ok_iff _ _ _).mp hvs
  refine ⟨vs, ?_, hf.length_eq.symm, ?_, ?_⟩
  · simp only [HFCustomEmbeddings.embedDocuments, hres, hvs]
  · intro i h1 h2
    exact hf.get h1 h2
  · intro h
    rw [← hf.length_eq, h]

/-- C5 amended, at a concrete input: two texts, two rows. -/
theorem embedDocuments_follows_response_witness :
    ∃ vs, ((embeddings demoEnv).embedDocuments demoEnv ["hello", "hi"]).result = .ok vs ∧
      vs.length = 2 :=
  (embedDocuments_follows_response demoEnv (embeddings demoEnv) ["hello", "hi"]
    [.arr [.num 5, .num 1], .arr [.num 2, .num 1]] rfl
    (by intro r hr; simp only [List.mem_cons, List.mem_singleton, List.not_mem_nil,
          or_false] at hr; rcases hr with rfl | rfl <;> rfl)).imp
    fun _ h => ⟨h.1, h.2.1⟩

/-! ## C6: no count check before pairing -/

/-- C6 as stated fails: user `u1` has two chunks, the provider returns one
vector for them, and the build succeeds with an index of one entry. -/
theorem build_count_mismatch_counterexample :
    (buildVectorStoreForUser shortEnv ⟨"u1"⟩).calls =
      [⟨some "hf_key", "sentence-transformers/all-MiniLM-L6-v2", .many ["hello", "hi"]⟩] ∧
    (buildVectorStoreForUser shortEnv ⟨"u1"⟩).result =
      .ok ⟨[⟨"hello", [7, 1], ⟨"d1", "a.txt"⟩⟩]⟩ :=
  ⟨rfl, rfl⟩

/-- C6 amended: `buildVectorStoreForUser` compares no counts. When the
collected chunks are embedded into `vectors`, the build succeeds whenever
there are at most as many vectors as chunks, and the index pairs the `i`-th
vector with the `i`-th chunk, the chunks beyond the vectors being absent; it
fails only when there are more vectors than chunks. -/
theorem build_pairs_without_count_check (env : Env) (userId : ObjectId)
    (allDocs : List Document) (vectors : List (List Int))
    (hcollect : collectChunks env (findReady env userId) [] = .ok allDocs)
    (hne : allDocs ≠ [])
    (hembed : ((embeddings env).embedDocuments env
      (allDocs.map fun d => d.pageContent)).result = .ok vectors) :
    (vectors.length ≤ allDocs.length →
      (buildVectorStoreForUser env userId).result =
        .ok ⟨List.zipWith pairEntry vectors allDocs⟩) ∧
    (allDocs.length < vectors.length →
      ∃ e, (buildVectorStoreForUser env userId).result = .error e) := by
  have hready : ¬ (findReady env userId).length = 0 := by
    intro h0
    have hnil : findReady env userId = [] := List.length_eq_zero.mp h0
    rw [hnil] at hcollect
    simp only [collectChunks] at hcollect
    cases hcollect
    exact hne rfl
  have hlen : ¬ allDocs.length = 0 := fun h0 => hne (List.length_eq_zero.mp h0)
  have hb : (buildVectorStoreForUser env userId).result =
      match addVectors vectors allDocs with
      | .error err => .error err
      | .ok mvs => .ok ⟨mvs⟩ := by
    unfold buildVectorStoreForUser
    simp only [if_neg hready, hcollect, if_neg hlen, MemoryVectorStore.fromDocuments, hembed]
  constructor
  · intro hle
    rw [hb, addVectors_of_le _ _ hle]
  · intro hgt
    rw [hb, addVectors_of_gt _ _ hgt]
    exact ⟨_, rfl⟩

/-- C6 amended, at a concrete input: one vector for the two chunks of `u1`. -/
theorem build_pairs_without_count_check_witness :
    (buildVectorStoreForUser shortEnv ⟨"u1"⟩).result =
      .ok ⟨List.zipWith pairEntry [[7, 1]]
        [⟨"hello", ⟨"d1", "a.txt"⟩⟩, ⟨"hi", ⟨"d2", "b.txt"⟩⟩]⟩ :=
  (build_pairs_without_count_check shortEnv ⟨"u1"⟩
    [⟨"hello", ⟨"d1", "a.txt"⟩⟩, ⟨"hi", ⟨"d2", "b.txt"⟩⟩] [[7, 1]] rfl (by decide) rfl).1
    (by decide)

/-! ## Lemmas: blank text -/

theorem jsTrim_eq_empty_iff (s : String) :
    jsTrim s = "" ↔ ∀ c ∈ s.data, isJsWhiteSpace c = true := by
  have hmk : jsTrim s = "" ↔
      ((s.data.dropWhile isJsWhiteSpace).reverse.dropWhile isJsWhiteSpace).reverse = [] := by
    unfold jsTrim
    constructor
    · intro h
      have := congrArg String.data h
      simpa using this
    · intro h
      rw [h]
  rw [hmk, List.reverse_eq_nil_iff, List.dropWhile_eq_nil_iff]
  constructor
  · intro h
    have hall : ∀ x ∈ s.data.dropWhile isJsWhiteSpace, isJsWhiteSpace x = true :=
      fun x hx => h x (List.mem_reverse.mpr hx)
    have hnil : s.data.dropWhile isJsWhiteSpace = [] := by
      by_contra hne
      have hhead := List.head_dropWhile_not isJsWhiteSpace s.data hne
      have := hall _ (List.head_mem hne)
      rw [this] at hhead
      cases hhead
    exact List.dropWhile_eq_nil_iff.mp hnil
  · intro h x hx
    have hnil : s.data.dropWhile isJsWhiteSpace = [] := List.dropWhile_eq_nil_iff.mpr h
    rw [hnil] at hx
    simp at hx

theorem isBlank_iff (s : String) :
    isBlank s = true ↔ ∀ c ∈ s.data, isJsWhiteSpace c = true := by
  unfold isBlank
  rw [Bool.or_eq_true, beq_iff_eq, beq_iff_eq, jsTrim_eq_empty_iff]
  constructor
  · rintro (h | h)
    · rw [h]
      intro c hc
      simp at hc
    · exact h
  · intro h
    exact Or.inr h

theorem keptText_eq_some_iff (env : Env) (d : DocumentRecord) (t : String) :
    keptText env d = some t ↔
      env.existsSync (env.pathJoin env.uploadsDir d.storedFilename) = true ∧
      extractTextFromFile env (env.pathJoin env.uploadsDir d.storedFilename) d.mimeType
        = .ok t ∧
      isBlank t = false := by
  unfold keptText
  cases hex : env.existsSync (env.pathJoin env.uploadsDir d.storedFilename) with
  | false => simp
  | true =>
    cases htx : extractTextFromFile env (env.pathJoin env.uploadsDir d.storedFilename)
        d.mimeType with
    | error e => simp
    | ok u =>
      cases hb : isBlank u with
      | true =>
        simp only [if_true, hb, true_and, Except.ok.injEq]
        constructor
        · intro h; cases h
        · rintro ⟨rfl, h2⟩
          rw [hb] at h2
          cases h2
      | false =>
        simp only [if_true, hb, Bool.false_eq_true, if_false, Option.some.injEq, true_and,
          Except.ok.injEq]
        constructor
        · rintro rfl
          exact ⟨rfl, hb⟩
        · rintro ⟨rfl, _⟩
          rfl

theorem keptChunks_eq_nil (env : Env) (docs : List DocumentRecord)
    (h : ∀ d ∈ docs, keptText env d = none) : keptChunks env docs = [] := by
  induction docs with
  | nil => rfl
  | cons d rest ih =>
    have hd := h d (List.mem_cons_self _ _)
    have hrest := ih fun x hx => h x (List.mem_cons_of_mem _ hx)
    unfold keptChunks at hrest ⊢
    simp only [List.flatMap_cons, hd, hrest, List.append_nil]

/-! ## C7: no ready document -/

/-- C7: when the user owns no document of status `ready`, both
`buildVectorStoreForUser` and `queryUserDocuments` fail with
"No ready documents for this user." and issue no provider request. -/
theorem no_ready_documents_no_embedding (env : Env) (userId : ObjectId) (question : String)
    (k : Nat) (documentId : Option String)
    (h : ∀ d ∈ env.documents, d.userId = userId → d.status ≠ Status.ready) :
    (buildVectorStoreForUser env userId).result =
      .error ⟨"No ready documents for this user."⟩ ∧
    (buildVectorStoreForUser env userId).calls = [] ∧
    (queryUserDocuments env userId question k documentId).result =
      .error ⟨"No ready documents for this user."⟩ ∧
    (queryUserDocuments env userId question k documentId).calls = [] := by
  have hnil : findReady env userId = [] := by
    apply List.eq_nil_iff_forall_not_mem.mpr
    intro d hd
    obtain ⟨hmem, huser, hready⟩ := (mem_findReady env userId d).mp hd
    exact h d hmem huser hready
  have hb : buildVectorStoreForUser env userId =
      ⟨.error ⟨"No ready documents for this user."⟩, []⟩ := by
    unfold buildVectorStoreForUser
    simp only [hnil, List.length_nil, if_true]
  refine ⟨by rw [hb], by rw [hb], ?_, ?_⟩ <;>
    simp only [queryUserDocuments, hb]

/-- C7 at a concrete input: user `u5` owns no document. -/
theorem no_ready_documents_no_embedding_witness :
    (queryUserDocuments demoEnv ⟨"u5"⟩ "hey" 5 none).result =
      .error ⟨"No ready documents for this user."⟩ ∧
    (queryUserDocuments demoEnv ⟨"u5"⟩ "hey" 5 none).calls = [] :=
  (no_ready_documents_no_embedding demoEnv ⟨"u5"⟩ "hey" 5 none (by decide)).2.2

/-! ## C8: ready documents without any text -/

/-- C8: when the user owns a ready document and every ready document of the
user has no file on disk or extracts to a text made of white space only (the
empty text included), `buildVectorStoreForUser` fails with
"No chunks available to build vector store." and issues no provider request. -/
theorem no_chunks_no_embedding (env : Env) (userId : ObjectId)
    (hsome : ∃ d ∈ env.documents, d.userId = userId ∧ d.status = Status.ready)
    (hall : ∀ d ∈ env.documents, d.userId = userId → d.status = Status.ready →
      env.existsSync (env.pathJoin env.uploadsDir d.storedFilename) = false ∨
      ∃ t, extractTextFromFile env (env.pathJoin env.uploadsDir d.storedFilename)
          d.mimeType = .ok t ∧ ∀ c ∈ t.data, isJsWhiteSpace c = true) :
    (buildVectorStoreForUser env userId).result =
      .error ⟨"No chunks available to build vector store."⟩ ∧
    (buildVectorStoreForUser env userId).calls = [] := by
  have hready : ¬ (findReady env userId).length = 0 := by
    obtain ⟨d, hd, huser, hst⟩ := hsome
    intro h0
    have hnil := List.length_eq_zero.mp h0
    have hmem : d ∈ findReady env userId := (mem_findReady env userId d).mpr ⟨hd, huser, hst⟩
    rw [hnil] at hmem
    cases hmem
  have hext : ∀ d ∈ findReady env userId, Extractable env d := by
    intro d hd hex
    obtain ⟨hmem, huser, hst⟩ := (mem_findReady env userId d).mp hd
    rcases hall d hmem huser hst with hno | ⟨t, ht, _⟩
    · rw [hno] at hex; cases hex
    · exact ⟨t, ht⟩
  have hkept : keptChunks env (findReady env userId) = [] := by
    apply keptChunks_eq_nil
    intro d hd
    obtain ⟨hmem, huser, hst⟩ := (mem_findReady env userId d).mp hd
    cases hk : keptText env d with
    | none => rfl
    | some t =>
      obtain ⟨hex, htx, hb⟩ := (keptText_eq_some_iff env d t).mp hk
      rcases hall d hmem huser hst with hno | ⟨u, hu, hws⟩
      · rw [hno] at hex; cases hex
      · rw [htx] at hu
        cases hu
        rw [(isBlank_iff t).mpr hws] at hb
        cases hb
  have hc := collectChunks_of_extractable env (findReady env userId) [] hext
  rw [hkept] at hc
  have hb : buildVectorStoreForUser env userId =
      ⟨.error ⟨"No chunks available to build vector store."⟩, []⟩ := by
    unfold buildVectorStoreForUser
    simp only [if_neg hready, hc, List.append_nil, List.length_nil, if_true]
  rw [hb]
  exact ⟨rfl, rfl⟩

/-- C8 at a concrete input: user `u4` owns `d8`, whose file holds a space and
a line feed, and `d9`, whose file is absent. -/
theorem no_chunks_no_embedding_witness :
    (buildVectorStoreForUser demoEnv ⟨"u4"⟩).result =
      .error ⟨"No chunks available to build vector store."⟩ ∧
    (buildVectorStoreForUser demoEnv ⟨"u4"⟩).calls = [] :=
  no_chunks_no_embedding demoEnv ⟨"u4"⟩
    ⟨⟨⟨"d8"⟩, ⟨"u4"⟩, "g.txt", "7-g.txt", "text/plain", 2, .ready⟩, by decide, rfl, rfl⟩
    (by
      intro d hd huser hst
      have hmem : d ∈ findReady demoEnv ⟨"u4"⟩ :=
        (mem_findReady demoEnv ⟨"u4"⟩ d).mpr ⟨hd, huser, hst⟩
      have hlist : findReady demoEnv ⟨"u4"⟩ =
          [⟨⟨"d8"⟩, ⟨"u4"⟩, "g.txt", "7-g.txt", "text/plain", 2, .ready⟩,
           ⟨⟨"d9"⟩, ⟨"u4"⟩, "i.txt", "9-i.txt", "text/plain", 2, .ready⟩] := rfl
      rw [hlist] at hmem
      simp only [List.mem_cons, List.mem_singleton, List.not_mem_nil, or_false] at hmem
      rcases hmem with rfl | rfl
      · exact Or.inr ⟨" \n", rfl, by decide⟩
      · exact Or.inl rfl)

/-! ## C9: skipped documents do not abort the build -/

/-- C9: when no extraction throws (every ready document of the user has no
file or extracts to a text) and some ready document has a file, a non-blank
text and at least one chunk, the build goes on to embed exactly the chunks of
the documents that have a file and a non-blank text, in one request, and each
of these chunks is a chunk of such a document. -/
theorem build_skips_missing_and_blank (env : Env) (userId : ObjectId)
    (hext : ∀ d ∈ findReady env userId, Extractable env d)
    (hsome : ∃ d ∈ findReady env userId, ∃ t, keptText env d = some t ∧
      env.splitText 500 100 t ≠ []) :
    collectChunks env (findReady env userId) [] =
      .ok (keptChunks env (findReady env userId)) ∧
    buildVectorStoreForUser env userId =
      MemoryVectorStore.fromDocuments env (keptChunks env (findReady env userId))
        (embeddings env) ∧
    (buildVectorStoreForUser env userId).calls =
      [⟨(embeddings env).apiKey, (embeddings env).model,
        .many ((keptChunks env (findReady env userId)).map fun c => c.pageContent)⟩] ∧
    ∀ c ∈ keptChunks env (findReady env userId), ∃ d ∈ findReady env userId, ∃ t,
      env.existsSync (env.pathJoin env.uploadsDir d.storedFilename) = true ∧
      extractTextFromFile env (env.pathJoin env.uploadsDir d.storedFilename) d.mimeType
        = .ok t ∧
      isBlank t = false ∧ c ∈ chunksOf env d t := by
  have hc := collectChunks_of_extractable env (findReady env userId) [] hext
  simp only [List.nil_append] at hc
  obtain ⟨d0, hd0, t0, hk0, hs0⟩ := hsome
  have hready : ¬ (findReady env userId).length = 0 := by
    intro h0
    rw [List.length_eq_zero.mp h0] at hd0
    cases hd0
  have hkept : ¬ (keptChunks env (findReady env userId)).length = 0 := by
    intro h0
    have hnil := List.length_eq_zero.mp h0
    obtain ⟨x, hx⟩ := List.exists_mem_of_ne_nil _ hs0
    have hmem : (⟨x, ⟨d0._id.toString, d0.originalName⟩⟩ : Document) ∈
        keptChunks env (findReady env userId) := by
      simp only [keptChunks, List.mem_flatMap]
      refine ⟨d0, hd0, ?_⟩
      rw [hk0]
      exact List.mem_map.mpr ⟨x, hx, rfl⟩
    rw [hnil] at hmem
    cases hmem
  have hb : buildVectorStoreForUser env userId =
      MemoryVectorStore.fromDocuments env (keptChunks env (findReady env userId))
        (embeddings env) := by
    unfold buildVectorStoreForUser
    simp only [if_neg hready, hc, if_neg hkept]
  refine ⟨hc, hb, ?_, ?_⟩
  · rw [hb]
    rfl
  · intro c hcm
    obtain ⟨d, hd, t, hk, hct⟩ := mem_keptChunks env _ c hcm
    obtain ⟨hex, htx, hbl⟩ := (keptText_eq_some_iff env d t).mp hk
    exact ⟨d, hd, t, hex, htx, hbl, hct⟩

/-- C9 at a concrete input: of the ready documents `d1`, `d2`, `d5` of user
`u1` the last has no file; the texts of the first two are embedded. -/
theorem build_skips_missing_and_blank_witness :
    (buildVectorStoreForUser demoEnv ⟨"u1"⟩).calls =
      [⟨some "hf_key", "sentence-transformers/all-MiniLM-L6-v2", .many ["hello", "hi"]⟩] :=
  (build_skips_missing_and_blank demoEnv ⟨"u1"⟩
    (by
      intro d hd
      have hlist : findReady demoEnv ⟨"u1"⟩ =
          [⟨⟨"d1"⟩, ⟨"u1"⟩, "a.txt", "1-a.txt", "text/plain", 5, .ready⟩,
           ⟨⟨"d2"⟩, ⟨"u1"⟩, "b.txt", "2-b.txt", "text/plain", 2, .ready⟩,
           ⟨⟨"d5"⟩, ⟨"u1"⟩, "e.txt", "5-e.txt", "text/plain", 1, .ready⟩] := rfl
      rw [hlist] at hd
      simp only [List.mem_cons, List.mem_singleton, List.not_mem_nil, or_false] at hd
      rcases hd with rfl | rfl | rfl
      · exact fun _ => ⟨"hello", rfl⟩
      · exact fun _ => ⟨"hi", rfl⟩
      · exact fun h => Bool.noConfusion (show false = true from h))
    ⟨⟨⟨"d1"⟩, ⟨"u1"⟩, "a.txt", "1-a.txt", "text/plain", 5, .ready⟩, by decide, "hello", rfl,
      by decide⟩).2.2.1

/-! ## C10: an extraction error aborts the build -/

/-- C10, evaluated on the code: user `u3` owns the ready PDF `d6`, which the
loader rejects, and the ready text document `d7`, whose text `"ok"` is kept
by the loop; the build fails with the loader's error before any provider
request, instead of returning an index with the chunk of `d7`. -/
theorem build_aborts_on_extraction_error :
    extractTextFromFile demoEnv "/app/uploads/6-f.pdf" "application/pdf" =
      .error ⟨"Invalid PDF structure"⟩ ∧
    keptText demoEnv ⟨⟨"d7"⟩, ⟨"u3"⟩, "h.txt", "8-h.txt", "text/plain", 2, .ready⟩ =
      some "ok" ∧
    (buildVectorStoreForUser demoEnv ⟨"u3"⟩).result = .error ⟨"Invalid PDF structure"⟩ ∧
    (buildVectorStoreForUser demoEnv ⟨"u3"⟩).calls = [] :=
  ⟨rfl, rfl, rfl, rfl⟩

/-! ## Lemmas: what the builder submits -/

theorem build_cases (env : Env) (userId : ObjectId) :
    ((buildVectorStoreForUser env userId).calls = [] ∧
      ∃ e, (buildVectorStoreForUser env userId).result = .error e) ∨
    (collectChunks env (findReady env userId) [] =
        .ok (keptChunks env (findReady env userId)) ∧
      keptChunks env (findReady env userId) ≠ [] ∧
      buildVectorStoreForUser env userId =
        MemoryVectorStore.fromDocuments env (keptChunks env (findReady env userId))
          (embeddings env)) := by
  unfold buildVectorStoreForUser
  simp only
  by_cases h0 : (findReady env userId).length = 0
  · rw [if_pos h0]
    exact Or.inl ⟨rfl, _, rfl⟩
  · rw [if_neg h0]
    cases hc : collectChunks env (findReady env userId) [] with
    | error e => exact Or.inl ⟨rfl, _, rfl⟩
    | ok allDocs =>
      have hall := collectChunks_ok env _ _ _ hc
      simp only [List.nil_append] at hall
      subst hall
      simp only
      by_cases h1 : (keptChunks env (findReady env userId)).length = 0
      · rw [if_pos h1]
        exact Or.inl ⟨rfl, _, rfl⟩
      · rw [if_neg h1]
        refine Or.inr ⟨by trivial, ?_, by trivial⟩
        intro hnil
        exact h1 (by rw [hnil]; rfl)

theorem fromDocuments_calls (env : Env) (docs : List Document) (emb : HFCustomEmbeddings) :
    (MemoryVectorStore.fromDocuments env docs emb).calls =
      [⟨emb.apiKey, emb.model, .many (docs.map fun d => d.pageContent)⟩] := rfl

theorem keptChunks_texts (env : Env) (docs : List DocumentRecord) :
    (keptChunks env docs).map (fun d => d.pageContent) = (chunkBlocks env docs).flatten := by
  induction docs with
  | nil => rfl
  | cons d rest ih =>
    unfold keptChunks chunkBlocks at ih ⊢
    cases hk : keptText env d with
    | none =>
      simp only [List.flatMap_cons, hk, List.nil_append, List.filterMap_cons]
      exact ih
    | some t =>
      simp only [List.flatMap_cons, hk, List.filterMap_cons, List.map_append, List.map_cons,
        List.flatten_cons, ih]
      congr 1
      simp [chunksOf, Function.comp_def]

theorem keptChunks_blocks (env : Env) (docs : List DocumentRecord) :
    keptChunks env docs =
      (docs.filterMap fun d => (keptText env d).map (chunksOf env d)).flatten := by
  induction docs with
  | nil => rfl
  | cons d rest ih =>
    unfold keptChunks at ih ⊢
    cases hk : keptText env d with
    | none => simp only [List.flatMap_cons, hk, List.nil_append, List.filterMap_cons,
        Option.map_none']; exact ih
    | some t => simp only [List.flatMap_cons, hk, List.filterMap_cons, Option.map_some',
        List.flatten_cons, ih]

theorem build_calls_of_mem (env : Env) (userId : ObjectId) (req : HfRequest)
    (h : req ∈ (buildVectorStoreForUser env userId).calls) :
    collectChunks env (findReady env userId) [] =
        .ok (keptChunks env (findReady env userId)) ∧
    (buildVectorStoreForUser env userId).calls = [req] ∧
    req = ⟨(embeddings env).apiKey, (embeddings env).model,
      .many (chunkBlocks env (findReady env userId)).flatten⟩ := by
  rcases build_cases env userId with ⟨hnil, _⟩ | ⟨hc, _, hb⟩
  · rw [hnil] at h
    cases h
  · rw [hb, fromDocuments_calls, keptChunks_texts] at h
    have hreq := List.mem_singleton.mp h
    refine ⟨hc, ?_, hreq⟩
    rw [hb, fromDocuments_calls, keptChunks_texts, hreq]

theorem zipWith_pairEntry_documents (vectors : List (List Int)) (documents : List Document)
    (h : vectors.length ≤ documents.length) :
    (List.zipWith pairEntry vectors documents).map
        (fun mv => (⟨mv.content, mv.metadata⟩ : Document)) =
      documents.take vectors.length := by
  induction vectors generalizing documents with
  | nil => simp
  | cons v vs ih =>
    cases documents with
    | nil => simp at h
    | cons d ds =>
      have h2 : vs.length ≤ ds.length := by simpa using h
      simp [ih ds h2, pairEntry]

/-! ## C11: the submitted chunk sequence -/

/-- C11: whenever `buildVectorStoreForUser` issues a provider request, it is
its only one, and the texts it submits are the concatenation, in the order of
the ready-document list, of the splitter's chunk lists of the documents that
are not skipped; the collected chunks are the concatenation of the
per-document blocks, so chunks of two documents are never interleaved. -/
theorem build_submits_concatenation (env : Env) (userId : ObjectId) (req : HfRequest)
    (h : req ∈ (buildVectorStoreForUser env userId).calls) :
    (buildVectorStoreForUser env userId).calls = [req] ∧
    req.inputs = .many (chunkBlocks env (findReady env userId)).flatten ∧
    collectChunks env (findReady env userId) [] =
      .ok ((findReady env userId).filterMap fun d =>
        (keptText env d).map (chunksOf env d)).flatten := by
  obtain ⟨hc, hcalls, hreq⟩ := build_calls_of_mem env userId req h
  refine ⟨hcalls, by rw [hreq], ?_⟩
  rw [hc, keptChunks_blocks]

/-- C11 at a concrete input: with a splitter that cuts after three characters,
the texts `"hello"` of `d1` and `"hi"` of `d2` are submitted as
`"hel"`, `"lo"`, `"hi"`, `""`. -/
theorem build_submits_concatenation_witness :
    (buildVectorStoreForUser twoChunkEnv ⟨"u1"⟩).calls =
      [⟨some "hf_key", "sentence-transformers/all-MiniLM-L6-v2",
        .many ["hel", "lo", "hi", ""]⟩] ∧
    (⟨some "hf_key", "sentence-transformers/all-MiniLM-L6-v2",
        .many ["hel", "lo", "hi", ""]⟩ : HfRequest).inputs =
      .many (chunkBlocks twoChunkEnv (findReady twoChunkEnv ⟨"u1"⟩)).flatten :=
  ⟨(build_submits_concatenation twoChunkEnv ⟨"u1"⟩
      ⟨some "hf_key", "sentence-transformers/all-MiniLM-L6-v2", .many ["hel", "lo", "hi", ""]⟩
      (List.mem_singleton.mpr rfl)).1,
   rfl⟩

/-! ## C12: chunk provenance -/

/-- C12: the entries of a built index are, position by position, the leading
chunks of the per-document blocks, each chunk of a document `d` carrying
`documentId = d._id.toString()` and `originalName = d.originalName`; so every
entry is a chunk of the text of a ready document whose id and name it carries. -/
theorem index_metadata_provenance (env : Env) (userId : ObjectId) (store : MemoryVectorStore)
    (h : (buildVectorStoreForUser env userId).result = .ok store) :
    store.memoryVectors.map (fun mv => (⟨mv.content, mv.metadata⟩ : Document)) =
      ((findReady env userId).flatMap fun d =>
        match keptText env d with
        | some fullText => (env.splitText 500 100 fullText).map fun c =>
            ⟨c, ⟨d._id.toString, d.originalName⟩⟩
        | none => []).take store.memoryVectors.length ∧
    ∀ mv ∈ store.memoryVectors, ∃ d ∈ findReady env userId, ∃ fullText,
      keptText env d = some fullText ∧ mv.content ∈ env.splitText 500 100 fullText ∧
      mv.metadata.documentId = d._id.toString ∧ mv.metadata.originalName = d.originalName := by
  constructor
  · obtain ⟨_, _, _, vectors, _, hle, hz⟩ := build_ok_inv env userId store h
    have hlen : store.memoryVectors.length = vectors.length := by
      rw [hz, List.length_zipWith]
      exact Nat.min_eq_left hle
    rw [hlen, hz, zipWith_pairEntry_documents _ _ hle]
    rfl
  · intro mv hmv
    obtain ⟨d, hd, t, hk, hc, hmeta⟩ := build_entry_origin env userId store h mv hmv
    exact ⟨d, hd, t, hk, hc, by rw [hmeta], by rw [hmeta]⟩

/-- C12 at a concrete input: the index of user `u1` with the splitter that
cuts after three characters. -/
theorem index_metadata_provenance_witness :
    (buildVectorStoreForUser twoChunkEnv ⟨"u1"⟩).result =
      .ok ⟨[⟨"hel", [3, 1], ⟨"d1", "a.txt"⟩⟩, ⟨"lo", [2, 1], ⟨"d1", "a.txt"⟩⟩,
            ⟨"hi", [2, 1], ⟨"d2", "b.txt"⟩⟩, ⟨"", [0, 1], ⟨"d2", "b.txt"⟩⟩]⟩ ∧
    ([⟨"hel", [3, 1], ⟨"d1", "a.txt"⟩⟩, ⟨"lo", [2, 1], ⟨"d1", "a.txt"⟩⟩,
      ⟨"hi", [2, 1], ⟨"d2", "b.txt"⟩⟩, ⟨"", [0, 1], ⟨"d2", "b.txt"⟩⟩] :
        List MemoryVector).map (fun mv => (⟨mv.content, mv.metadata⟩ : Document)) =
      ((findReady twoChunkEnv ⟨"u1"⟩).flatMap fun d =>
        match keptText twoChunkEnv d with
        | some fullText => (twoChunkEnv.splitText 500 100 fullText).map fun c =>
            ⟨c, ⟨d._id.toString, d.originalName⟩⟩
        | none => []).take 4 :=
  ⟨rfl, (index_metadata_provenance twoChunkEnv ⟨"u1"⟩
    ⟨[⟨"hel", [3, 1], ⟨"d1", "a.txt"⟩⟩, ⟨"lo", [2, 1], ⟨"d1", "a.txt"⟩⟩,
      ⟨"hi", [2, 1], ⟨"d2", "b.txt"⟩⟩, ⟨"", [0, 1], ⟨"d2", "b.txt"⟩⟩]⟩ rfl).1⟩

/-! ## C13: one batched embedding call -/

/-- C13: a successful `buildVectorStoreForUser` issues exactly one provider
request, the `embedDocuments` batch whose texts are all chunk texts of all
documents that are not skipped; a failed build issues at most one request. -/
theorem build_single_embedding_call (env : Env) (userId : ObjectId) :
    (∀ store, (buildVectorStoreForUser env userId).result = .ok store →
      (buildVectorStoreForUser env userId).calls =
        [⟨(embeddings env).apiKey, (embeddings env).model,
          .many (chunkBlocks env (findReady env userId)).flatten⟩]) ∧
    (∀ e, (buildVectorStoreForUser env userId).result = .error e →
      (buildVectorStoreForUser env userId).calls.length ≤ 1) := by
  rcases build_cases env userId with ⟨hnil, e0, he0⟩ | ⟨_, _, hb⟩
  · refine ⟨?_, ?_⟩
    · intro store hs
      rw [he0] at hs
      cases hs
    · intro e _
      rw [hnil]
      exact Nat.zero_le 1
  · refine ⟨?_, ?_⟩
    · intro store _
      rw [hb, fromDocuments_calls, keptChunks_texts]
    · intro e _
      rw [hb, fromDocuments_calls]
      exact Nat.le_refl 1

/-- C13 at a concrete input: four chunks of two documents, one request; and
the build that fails at the provider issues one request. -/
theorem build_single_embedding_call_witness :
    (buildVectorStoreForUser twoChunkEnv ⟨"u1"⟩).calls =
      [⟨some "hf_key", "sentence-transformers/all-MiniLM-L6-v2",
        .many ["hel", "lo", "hi", ""]⟩] ∧
    (buildVectorStoreForUser failingEnv ⟨"u1"⟩).calls.length ≤ 1 :=
  ⟨(build_single_embedding_call twoChunkEnv ⟨"u1"⟩).1
      ⟨[⟨"hel", [3, 1], ⟨"d1", "a.txt"⟩⟩, ⟨"lo", [2, 1], ⟨"d1", "a.txt"⟩⟩,
        ⟨"hi", [2, 1], ⟨"d2", "b.txt"⟩⟩, ⟨"", [0, 1], ⟨"d2", "b.txt"⟩⟩]⟩ rfl,
   (build_single_embedding_call failingEnv ⟨"u1"⟩).2 ⟨"503 Service Unavailable"⟩ rfl⟩

/-! ## Lemmas: normalisation and provider errors -/

theorem normalizeVec_arr (env : Env) (res : List JsVal) :
    normalizeVec env (.arr res) = .ok (normalized env res) := by
  cases res with
  | nil => rfl
  | cons x xs => cases x <;> rfl

theorem mapThrowing_normalizeVec_rows (env : Env) (rows : List (List JsVal)) :
    mapThrowing (normalizeVec env) (rows.map JsVal.arr) = .ok (rows.map (normalized env)) := by
  induction rows with
  | nil => rfl
  | cons r rs ih => simp only [List.map_cons, mapThrowing, normalizeVec_arr, ih]

theorem embedDocuments_error (env : Env) (self : HFCustomEmbeddings) (texts : List String)
    (e : JsError)
    (h : env.featureExtraction ⟨self.apiKey, self.model, .many texts⟩ = .error e) :
    (self.embedDocuments env texts).result = .error e := by
  simp only [HFCustomEmbeddings.embedDocuments, h]

theorem embedQuery_error (env : Env) (self : HFCustomEmbeddings) (text : String)
    (e : JsError)
    (h : env.featureExtraction ⟨self.apiKey, self.model, .one text⟩ = .error e) :
    (self.embedQuery env text).result = .error e := by
  simp only [HFCustomEmbeddings.embedQuery, h]

theorem build_provider_error (env : Env) (userId : ObjectId) (req : HfRequest) (e : JsError)
    (hreq : req ∈ (buildVectorStoreForUser env userId).calls)
    (herr : env.featureExtraction req = .error e) :
    (buildVectorStoreForUser env userId).result = .error e := by
  rcases build_cases env userId with ⟨hnil, _⟩ | ⟨_, _, hb⟩
  · rw [hnil] at hreq
    cases hreq
  · rw [hb, fromDocuments_calls] at hreq
    have hr := List.mem_singleton.mp hreq
    rw [hr] at herr
    rw [hb]
    simp only [MemoryVectorStore.fromDocuments, embedDocuments_error env _ _ e herr]

theorem query_provider_error (env : Env) (userId : ObjectId) (question : String) (k : Nat)
    (documentId : Option String) (req : HfRequest) (e : JsError)
    (hreq : req ∈ (queryUserDocuments env userId question k documentId).calls)
    (herr : env.featureExtraction req = .error e) :
    (queryUserDocuments env userId question k documentId).result = .error e := by
  unfold queryUserDocuments at hreq ⊢
  simp only at hreq ⊢
  cases hb : (buildVectorStoreForUser env userId).result with
  | error e0 =>
    rw [hb] at hreq
    simp only at hreq
    have := build_provider_error env userId req e hreq herr
    rw [hb] at this
    cases this
    rfl
  | ok store =>
    rw [hb] at hreq
    simp only [List.mem_append] at hreq
    rcases hreq with hreq | hreq
    · have := build_provider_error env userId req e hreq herr
      rw [hb] at this
      cases this
    · simp only [MemoryVectorStore.similaritySearch, HFCustomEmbeddings.embedQuery,
        List.mem_singleton] at hreq
      rw [hreq] at herr
      simp only [MemoryVectorStore.similaritySearch,
        embedQuery_error env (embeddings env) question e herr]

theorem postQuery_provider_error (env : Env) (userId : ObjectId) (q : Option String)
    (req : HfRequest) (e : JsError)
    (hreq : req ∈ (postQuery env userId q).calls)
    (herr : env.featureExtraction req = .error e) :
    (postQuery env userId q).response =
      ⟨500, .failure "RAG query failed" (errorText e)⟩ := by
  unfold postQuery at hreq ⊢
  cases q with
  | none => simp at hreq
  | some s =>
    simp only at hreq ⊢
    by_cases hbl : isBlank s = true
    · rw [if_pos hbl] at hreq
      simp at hreq
    · rw [if_neg hbl] at hreq ⊢
      cases hr : (queryUserDocuments env userId s 5 none).result with
      | error err =>
        rw [hr] at hreq
        simp only at hreq
        have := query_provider_error env userId s 5 none req e hreq herr
        rw [hr] at this
        cases this
        rfl
      | ok results =>
        rw [hr] at hreq
        simp only at hreq
        have := query_provider_error env userId s 5 none req e hreq herr
        rw [hr] at this
        cases this

theorem postAnswer_provider_error (env : Env) (userId : ObjectId) (q X : Option String)
    (req : HfRequest) (e : JsError)
    (hreq : req ∈ (postAnswer env userId q X).calls)
    (herr : env.featureExtraction req = .error e) :
    (postAnswer env userId q X).response =
      ⟨500, .failure "RAG answer generation failed" (errorText e)⟩ := by
  unfold postAnswer at hreq ⊢
  cases q with
  | none => simp at hreq
  | some s =>
    simp only at hreq ⊢
    by_cases hbl : isBlank s = true
    · rw [if_pos hbl] at hreq
      simp at hreq
    · rw [if_neg hbl] at hreq ⊢
      by_cases hkey : (!truthy (env.processEnv "OPENROUTER_API_KEY")) = true
      · rw [if_pos hkey] at hreq
        simp at hreq
      · rw [if_neg hkey] at hreq ⊢
        cases hr : (queryUserDocuments env userId s 5 (jsOr X none)).result with
        | error err =>
          rw [hr] at hreq
          simp only at hreq
          have := query_provider_error env userId s 5 _ req e hreq herr
          rw [hr] at this
          cases this
          rfl
        | ok results =>
          have hmem : req ∈ (queryUserDocuments env userId s 5 (jsOr X none)).calls := by
            rw [hr] at hreq
            simp only at hreq
            split at hreq
            · exact hreq
            · split at hreq
              · exact hreq
              · split at hreq
                · exact hreq
                · split at hreq
                  · exact hreq
                  · split at hreq <;> exact hreq
          have := query_provider_error env userId s 5 _ req e hmem herr
          rw [hr] at this
          cases this

/-! ## C14: vector normalisation -/

/-- C14: for a provider response that is an array `res`, `embedQuery` returns
`res[0]` coerced element by element with `Number` when `res[0]` is an array
and `res` so coerced otherwise; for a batch response whose rows are arrays,
`embedDocuments` returns the same normalisation of every row, in order. A flat
vector of numbers is returned unchanged and a nested one is reduced to its
first row. -/
theorem vector_normalization (env : Env) (self : HFCustomEmbeddings) :
    (∀ text res,
      env.featureExtraction ⟨self.apiKey, self.model, .one text⟩ = .ok (.arr res) →
      (self.embedQuery env text).result = .ok (normalized env res)) ∧
    (∀ (texts : List String) (rows : List (List JsVal)),
      env.featureExtraction ⟨self.apiKey, self.model, .many texts⟩ =
        .ok (.arr (rows.map JsVal.arr)) →
      (self.embedDocuments env texts).result = .ok (rows.map (normalized env))) ∧
    (∀ ns : List Int, normalized env (ns.map JsVal.num) = ns) ∧
    (∀ (ns : List Int) (rest : List JsVal),
      normalized env (JsVal.arr (ns.map JsVal.num) :: rest) = ns) := by
  refine ⟨?_, ?_, ?_, ?_⟩
  · intro text res h
    simp only [HFCustomEmbeddings.embedQuery, h, normalizeVec_arr]
  · intro texts rows h
    simp only [HFCustomEmbeddings.embedDocuments, h, mapThrowing_normalizeVec_rows]
  · intro ns
    cases ns with
    | nil => rfl
    | cons n ns =>
      simp only [normalized, List.map_cons, List.head?_cons, List.map_map]
      have hid : (jsNumber env ∘ JsVal.num) = id := by
        funext x
        rfl
      rw [hid, List.map_id]
      rfl
  · intro ns rest
    simp only [normalized, List.head?_cons, List.map_map]
    have hid : (jsNumber env ∘ JsVal.num) = id := by
      funext x
      rfl
    rw [hid, List.map_id]

/-- C14 at a concrete input: the flat response `[3, 1]` for the query `"hey"`
and the nested rows `[[5, 1]]`, `[[2, 1]]` for a batch. -/
theorem vector_normalization_witness :
    ((embeddings demoEnv).embedQuery demoEnv "hey").result = .ok [3, 1] ∧
    normalized demoEnv [.arr [.num 5, .num 1], .arr [.num 9]] = [5, 1] :=
  ⟨(vector_normalization demoEnv (embeddings demoEnv)).1 "hey" [.num 3, .num 1] rfl,
   (vector_normalization demoEnv (embeddings demoEnv)).2.2.2 [5, 1] [.arr [.num 9]]⟩

/-! ## C15: a failing provider -/

/-- C15: when the provider rejects a request with error `e`, `embedDocuments`
and `embedQuery` fail with `e`; `queryUserDocuments` fails with `e` as soon as
one of its requests is rejected, and the two routes then answer with status
500 and a failure body, which holds no sources. -/
theorem provider_failure_propagates (env : Env) (userId : ObjectId) (e : JsError) :
    (∀ (self : HFCustomEmbeddings) texts,
      env.featureExtraction ⟨self.apiKey, self.model, .many texts⟩ = .error e →
      (self.embedDocuments env texts).result = .error e) ∧
    (∀ (self : HFCustomEmbeddings) text,
      env.featureExtraction ⟨self.apiKey, self.model, .one text⟩ = .error e →
      (self.embedQuery env text).result = .error e) ∧
    (∀ question k documentId req,
      req ∈ (queryUserDocuments env userId question k documentId).calls →
      env.featureExtraction req = .error e →
      (queryUserDocuments env userId question k documentId).result = .error e) ∧
    (∀ q req, req ∈ (postQuery env userId q).calls →
      env.featureExtraction req = .error e →
      (postQuery env userId q).response =
        ⟨500, .failure "RAG query failed" (errorText e)⟩ ∧
      Body.sourcesOf (postQuery env userId q).response.body = []) ∧
    (∀ q X req, req ∈ (postAnswer env userId q X).calls →
      env.featureExtraction req = .error e →
      (postAnswer env userId q X).response =
        ⟨500, .failure "RAG answer generation failed" (errorText e)⟩ ∧
      Body.sourcesOf (postAnswer env userId q X).response.body = []) := by
  refine ⟨?_, ?_, ?_, ?_, ?_⟩
  · intro self texts h
    exact embedDocuments_error env self texts e h
  · intro self text h
    exact embedQuery_error env self text e h
  · intro question k documentId req hreq herr
    exact query_provider_error env userId question k documentId req e hreq herr
  · intro q req hreq herr
    have h := postQuery_provider_error env userId q req e hreq herr
    exact ⟨h, by rw [h]; rfl⟩
  · intro q X req hreq herr
    have h := postAnswer_provider_error env userId q X req e hreq herr
    exact ⟨h, by rw [h]; rfl⟩

/-- C15 at a concrete input: the provider answers `503 Service Unavailable`
to the batch of user `u1`. -/
theorem provider_failure_propagates_witness :
    (queryUserDocuments failingEnv ⟨"u1"⟩ "hey" 5 none).result =
      .error ⟨"503 Service Unavailable"⟩ ∧
    (postQuery failingEnv ⟨"u1"⟩ (some "hey")).response =
      ⟨500, .failure "RAG query failed" "503 Service Unavailable"⟩ ∧
    (postAnswer failingEnv ⟨"u1"⟩ (some "hey") none).response =
      ⟨500, .failure "RAG answer generation failed" "503 Service Unavailable"⟩ :=
  ⟨(provider_failure_propagates failingEnv ⟨"u1"⟩ ⟨"503 Service Unavailable"⟩).2.2.1
      "hey" 5 none
      ⟨some "hf_key", "sentence-transformers/all-MiniLM-L6-v2", .many ["hello", "hi"]⟩
      (List.mem_singleton.mpr rfl) rfl,
   ((provider_failure_propagates failingEnv ⟨"u1"⟩ ⟨"503 Service Unavailable"⟩).2.2.2.1
      (some "hey")
      ⟨some "hf_key", "sentence-transformers/all-MiniLM-L6-v2", .many ["hello", "hi"]⟩
      (List.mem_singleton.mpr rfl) rfl).1,
   ((provider_failure_propagates failingEnv ⟨"u1"⟩ ⟨"503 Service Unavailable"⟩).2.2.2.2
      (some "hey") none
      ⟨some "hf_key", "sentence-transformers/all-MiniLM-L6-v2", .many ["hello", "hi"]⟩
      (List.mem_singleton.mpr rfl) rfl).1⟩

/-! ## C16: a missing credential -/

/-- C16 as stated fails: with neither `HUGGINGFACEHUB_API_KEY` nor
`HF_API_KEY` set, the client is constructed with no key, the build for user
`u1` sends its batch to the provider without a token and returns an index. -/
theorem missing_credential_counterexample :
    (embeddings noKeyEnv).apiKey = none ∧
    (buildVectorStoreForUser noKeyEnv ⟨"u1"⟩).calls =
      [⟨none, "sentence-transformers/all-MiniLM-L6-v2", .many ["hello", "hi"]⟩] ∧
    (buildVectorStoreForUser noKeyEnv ⟨"u1"⟩).result =
      .ok ⟨[⟨"hello", [5, 1], ⟨"d1", "a.txt"⟩⟩, ⟨"hi", [2, 1], ⟨"d2", "b.txt"⟩⟩]⟩ :=
  ⟨rfl, rfl, rfl⟩

/-- C16 amended: when neither `HUGGINGFACEHUB_API_KEY` nor `HF_API_KEY` holds a
non-empty value, constructing the client does not fail: it holds a falsy
`apiKey`, and `embedDocuments` and `embedQuery` each still issue their provider
request with that token; a failure, if any, is the provider error rethrown
after the request, and an array answer is normalised as with a key. -/
theorem missing_credential_not_checked (env : Env)
    (h1 : truthy (env.processEnv "HUGGINGFACEHUB_API_KEY") = false)
    (h2 : truthy (env.processEnv "HF_API_KEY") = false) :
    truthy (embeddings env).apiKey = false ∧
    (∀ texts, ((embeddings env).embedDocuments env texts).calls =
      [⟨env.processEnv "HF_API_KEY", "sentence-transformers/all-MiniLM-L6-v2",
        .many texts⟩]) ∧
    (∀ text, ((embeddings env).embedQuery env text).calls =
      [⟨env.processEnv "HF_API_KEY", "sentence-transformers/all-MiniLM-L6-v2",
        .one text⟩]) ∧
    (∀ text e,
      env.featureExtraction ⟨env.processEnv "HF_API_KEY",
        "sentence-transformers/all-MiniLM-L6-v2", .one text⟩ = .error e →
      ((embeddings env).embedQuery env text).result = .error e) ∧
    (∀ text res,
      env.featureExtraction ⟨env.processEnv "HF_API_KEY",
        "sentence-transformers/all-MiniLM-L6-v2", .one text⟩ = .ok (.arr res) →
      ((embeddings env).embedQuery env text).result = .ok (normalized env res)) := by
  have hkey : (embeddings env).apiKey = env.processEnv "HF_API_KEY" := by
    have hnone : truthy none = false := rfl
    simp only [embeddings, HFCustomEmbeddings.new, jsOr, hnone, h1, Bool.false_eq_true,
      if_false]
  have hmodel : (embeddings env).model = "sentence-transformers/all-MiniLM-L6-v2" := rfl
  refine ⟨by rw [hkey]; exact h2, ?_, ?_, ?_, ?_⟩
  · intro texts
    simp only [HFCustomEmbeddings.embedDocuments, hkey, hmodel]
  · intro text
    simp only [HFCustomEmbeddings.embedQuery, hkey, hmodel]
  · intro text e h
    simp only [HFCustomEmbeddings.embedQuery, hkey, hmodel, h]
  · intro text res h
    simp only [HFCustomEmbeddings.embedQuery, hkey, hmodel, h, normalizeVec_arr]

/-- C16 amended, at a concrete input: no key in the environment, and the
request for the query `"hey"` goes out without a token. -/
theorem missing_credential_not_checked_witness :
    truthy (embeddings noKeyEnv).apiKey = false ∧
    ((embeddings noKeyEnv).embedQuery noKeyEnv "hey").calls =
      [⟨none, "sentence-transformers/all-MiniLM-L6-v2", .one "hey"⟩] :=
  ⟨(missing_credential_not_checked noKeyEnv rfl rfl).1,
   (missing_credential_not_checked noKeyEnv rfl rfl).2.2.1 "hey"⟩

/-! ## Lemmas: the routes -/

theorem collectChunks_queryCreate (env : Env) (save : QueryRecord → Except JsError Unit)
    (docs : List DocumentRecord) (acc : List Document) :
    collectChunks { env with queryCreate := save } docs acc = collectChunks env docs acc := by
  induction docs generalizing acc with
  | nil => rfl
  | cons d rest ih =>
    simp only [collectChunks, extractTextFromFile, chunksOf, ih]

theorem build_queryCreate (env : Env) (save : QueryRecord → Except JsError Unit)
    (userId : ObjectId) :
    buildVectorStoreForUser { env with queryCreate := save } userId =
      buildVectorStoreForUser env userId := by
  unfold buildVectorStoreForUser
  simp only [collectChunks_queryCreate]
  rfl

theorem query_queryCreate (env : Env) (save : QueryRecord → Except JsError Unit)
    (userId : ObjectId) (question : String) (k : Nat) (documentId : Option String) :
    queryUserDocuments { env with queryCreate := save } userId question k documentId =
      queryUserDocuments env userId question k documentId := by
  unfold queryUserDocuments
  rw [build_queryCreate]
  rfl

theorem postAnswer_queryCreate (env : Env) (save : QueryRecord → Except JsError Unit)
    (userId : ObjectId) (question documentId : Option String) :
    (postAnswer { env with queryCreate := save } userId question documentId).response =
      (postAnswer env userId question documentId).response := by
  unfold postAnswer
  simp only [query_queryCreate]
  cases question with
  | none => rfl
  | some q =>
    simp only
    split
    · rfl
    · split
      · rfl
      · cases hr : (queryUserDocuments env userId q 5 (jsOr documentId none)).result with
        | error err => rfl
        | ok results =>
          simp only
          split
          · rfl
          · cases hf : env.fetchChat (prompt q (contextText results)) with
            | error err => rfl
            | ok response =>
              simp only
              split
              · rfl
              · cases hcont : response.content with
                | error err => rfl
                | ok content =>
                  simp only
                  cases save (toQueryRecord userId q
                    ((jsOr content
                      (some "I couldn\x27t generate an answer from the documents.")).getD
                      "I couldn\x27t generate an answer from the documents.")
                    (toSources results)) <;>
                  cases env.queryCreate (toQueryRecord userId q
                    ((jsOr content
                      (some "I couldn\x27t generate an answer from the documents.")).getD
                      "I couldn\x27t generate an answer from the documents.")
                    (toSources results)) <;> rfl

theorem postQuery_ok_inv (env : Env) (userId : ObjectId) (q : String)
    (h : (postQuery env userId (some q)).response.status = 200) :
    ∃ results, (queryUserDocuments env userId q 5 none).result = .ok results ∧
      (postQuery env userId (some q)).response.body = .sources q (toSources results) := by
  unfold postQuery at h ⊢
  simp only at h ⊢
  split at h
  · simp at h
  · rename_i hbl
    rw [if_neg hbl]
    cases hr : (queryUserDocuments env userId q 5 none).result with
    | error err =>
      rw [hr] at h
      simp at h
    | ok results => exact ⟨results, rfl, rfl⟩

theorem postAnswer_ok_inv (env : Env) (userId : ObjectId) (q : String)
    (documentId : Option String)
    (h : (postAnswer env userId (some q) documentId).response.status = 200) :
    ∃ results answer,
      (queryUserDocuments env userId q 5 (jsOr documentId none)).result = .ok results ∧
      (postAnswer env userId (some q) documentId).response.body =
        .answer q answer (toSources results) := by
  unfold postAnswer at h ⊢
  simp only at h ⊢
  split at h
  · simp at h
  · rename_i hbl
    rw [if_neg hbl]
    split at h
    · simp at h
    · rename_i hkey
      rw [if_neg hkey]
      cases hr : (queryUserDocuments env userId q 5 (jsOr documentId none)).result with
      | error err =>
        rw [hr] at h
        simp at h
      | ok results =>
        rw [hr] at h
        simp only at h ⊢
        split at h
        · simp at h
        · rename_i hlen
          rw [if_neg hlen]
          cases hf : env.fetchChat (prompt q (contextText results)) with
          | error err =>
            rw [hf] at h
            simp at h
          | ok response =>
            rw [hf] at h
            simp only at h ⊢
            split at h
            · simp at h
            · rename_i hok
              rw [if_neg hok]
              cases hcont : response.content with
              | error err =>
                rw [hcont] at h
                simp at h
              | ok content =>
                simp only
                refine ⟨results, (jsOr content
                  (some "I couldn\x27t generate an answer from the documents.")).getD
                  "I couldn\x27t generate an answer from the documents.", rfl, ?_⟩
                split <;> rfl

/-! ## C17: a question is required -/

/-- C17: when the question is missing or consists of white space only (the
empty string included), both routes answer 400 "Question is required" whatever
the documents, files and provider are: no provider request, no chat request
and no save is made. -/
theorem blank_question_rejected (env : Env) (userId : ObjectId)
    (question documentId : Option String)
    (h : question = none ∨
      ∃ s, question = some s ∧ ∀ c ∈ s.data, isJsWhiteSpace c = true) :
    postQuery env userId question =
      ⟨⟨400, .message "Question is required"⟩, [], [], []⟩ ∧
    postAnswer env userId question documentId =
      ⟨⟨400, .message "Question is required"⟩, [], [], []⟩ := by
  rcases h with rfl | ⟨s, rfl, hs⟩
  · exact ⟨rfl, rfl⟩
  · have hbl : isBlank s = true := (isBlank_iff s).mpr hs
    constructor
    · simp only [postQuery, hbl, if_true]
    · simp only [postAnswer, hbl, if_true]

/-- C17 at a concrete input: the question `"  "`. -/
theorem blank_question_rejected_witness :
    postQuery demoEnv ⟨"u1"⟩ (some "  ") =
      ⟨⟨400, .message "Question is required"⟩, [], [], []⟩ ∧
    postAnswer demoEnv ⟨"u1"⟩ (some "  ") (some "d2") =
      ⟨⟨400, .message "Question is required"⟩, [], [], []⟩ :=
  blank_question_rejected demoEnv ⟨"u1"⟩ (some "  ") (some "d2")
    (Or.inr ⟨"  ", rfl, by decide⟩)

/-! ## C18: sources numbered from one -/

/-- C18: the `sources` built from a result list have its length and order; the
source at 0-based position `i` has `sourceNumber = i + 1` and the text,
document id and document name of the `i`-th result, so the source numbers are
exactly `1..n`; a 200 response of either route carries the sources built from
the results of `queryUserDocuments`. -/
theorem sources_follow_results (env : Env) (userId : ObjectId) (results : List Document) :
    (toSources results).length = results.length ∧
    (∀ i (h1 : i < results.length) (h2 : i < (toSources results).length),
      (toSources results).get ⟨i, h2⟩ =
        ⟨(results.get ⟨i, h1⟩).pageContent, (results.get ⟨i, h1⟩).metadata.documentId,
          (results.get ⟨i, h1⟩).metadata.originalName, i + 1⟩) ∧
    (toSources results).map (fun s => s.sourceNumber) = List.range' 1 results.length ∧
    (∀ q, (postQuery env userId (some q)).response.status = 200 →
      ∃ rs, (queryUserDocuments env userId q 5 none).result = .ok rs ∧
        (postQuery env userId (some q)).response.body = .sources q (toSources rs)) ∧
    (∀ q X, (postAnswer env userId (some q) X).response.status = 200 →
      ∃ rs answer, (queryUserDocuments env userId q 5 (jsOr X none)).result = .ok rs ∧
        (postAnswer env userId (some q) X).response.body =
          .answer q answer (toSources rs)) := by
  refine ⟨length_toSources results, ?_, ?_, ?_, ?_⟩
  · intro i h1 h2
    simp [toSources]
  · apply List.ext_getElem
    · simp [toSources]
    · intro i h1 h2
      simp [toSources, List.getElem_range', Nat.add_comm]
  · intro q h
    exact postQuery_ok_inv env userId q h
  · intro q X h
    exact postAnswer_ok_inv env userId q X h

/-- C18 at a concrete input: the two results of user `u1` for `"hey"` are
numbered 1 and 2, and the 200 response of `/rag/answer` carries the sources of
the query results. -/
theorem sources_follow_results_witness :
    (toSources [⟨"hello", ⟨"d1", "a.txt"⟩⟩, ⟨"hi", ⟨"d2", "b.txt"⟩⟩]).map
      (fun s => s.sourceNumber) = [1, 2] ∧
    (postAnswer chatEnv ⟨"u1"⟩ (some "hey") none).response.status = 200 ∧
    ∃ rs answer, (queryUserDocuments chatEnv ⟨"u1"⟩ "hey" 5 (jsOr none none)).result = .ok rs ∧
      (postAnswer chatEnv ⟨"u1"⟩ (some "hey") none).response.body =
        .answer "hey" answer (toSources rs) :=
  ⟨(sources_follow_results chatEnv ⟨"u1"⟩
      [⟨"hello", ⟨"d1", "a.txt"⟩⟩, ⟨"hi", ⟨"d2", "b.txt"⟩⟩]).2.2.1,
   rfl,
   (sources_follow_results chatEnv ⟨"u1"⟩ []).2.2.2.2 "hey" none rfl⟩

/-! ## C19: saving the history never changes the response -/

/-- C19: the response of `/rag/answer` does not depend on `Query.create`: for
any two behaviours of the save, one failing and one succeeding included, the
status and the body (question, answer, sources) are the same. -/
theorem save_failure_keeps_response (env : Env) (userId : ObjectId)
    (question documentId : Option String)
    (save1 save2 : QueryRecord → Except JsError Unit) :
    (postAnswer { env with queryCreate := save1 } userId question documentId).response =
      (postAnswer { env with queryCreate := save2 } userId question documentId).response := by
  rw [postAnswer_queryCreate env save1, postAnswer_queryCreate env save2]

/-! ## C20: a filter that matches nothing -/

/-- C20, evaluated on the code: `d3` belongs to user `u2`, so no chunk of the
index of user `u1` carries its id; the query of `u1` restricted to
`documentId = "d3"` still returns the two chunks of `u1` instead of the empty
list, because `queryUserDocuments` never reads `documentId`. -/
theorem queryUserDocuments_unmatched_filter :
    (buildVectorStoreForUser demoEnv ⟨"u1"⟩).result =
      .ok ⟨[⟨"hello", [5, 1], ⟨"d1", "a.txt"⟩⟩, ⟨"hi", [2, 1], ⟨"d2", "b.txt"⟩⟩]⟩ ∧
    (queryUserDocuments demoEnv ⟨"u1"⟩ "hey" 5 (some "d3")).result =
      .ok [⟨"hello", ⟨"d1", "a.txt"⟩⟩, ⟨"hi", ⟨"d2", "b.txt"⟩⟩] :=
  ⟨rfl, rfl⟩

/-! ## C21: unsupported content types -/

/-- C21: for a content type other than `application/pdf` and `text/plain`,
`extractTextFromFile` fails with the message
"Unsupported mimeType for text extraction: " followed by that type, whatever
the file system is (no file is read); for the two supported types the outcome
is the outcome of the PDF loader, or of reading the file, so any error is
theirs. -/
theorem extract_unsupported_type (env : Env) (filePath mimeType : String) :
    (mimeType ≠ "application/pdf" → mimeType ≠ "text/plain" →
      extractTextFromFile env filePath mimeType =
        .error ⟨"Unsupported mimeType for text extraction: " ++ mimeType⟩) ∧
    (∀ e, extractTextFromFile env filePath "application/pdf" = .error e →
      env.pdfLoad filePath = .error e) ∧
    (∀ e, extractTextFromFile env filePath "text/plain" = .error e →
      env.readFileSync filePath = .error e) := by
  refine ⟨?_, ?_, ?_⟩
  · intro h1 h2
    simp only [extractTextFromFile, if_neg h1, if_neg h2]
  · intro e h
    simp only [extractTextFromFile, if_true] at h
    cases hl : env.pdfLoad filePath with
    | error e2 => rw [hl] at h; cases h; rfl
    | ok docs => rw [hl] at h; cases h
  · intro e h
    have hne : ¬ ("text/plain" = "application/pdf") := by decide
    simp only [extractTextFromFile, if_neg hne, if_true] at h
    cases hl : env.readFileSync filePath with
    | error e2 => rw [hl] at h; cases h; rfl
    | ok buffer => rw [hl] at h; cases h

/-- C21 at a concrete input: the content type `image/png`. -/
theorem extract_unsupported_type_witness :
    extractTextFromFile demoEnv "/app/uploads/1-a.txt" "image/png" =
      .error ⟨"Unsupported mimeType for text extraction: image/png"⟩ :=
  (extract_unsupported_type demoEnv "/app/uploads/1-a.txt" "image/png").1
    (by decide) (by decide)

/-! ## C22: what the extractor returns -/

theorem intercalate_go_eq (acc sep : String) (l : List String) :
    String.intercalate.go acc sep l = l.foldl (fun a p => a ++ sep ++ p) acc := by
  induction l generalizing acc with
  | nil => rfl
  | cons x xs ih => simp only [String.intercalate.go, List.foldl_cons, ih]

theorem foldl_join_cons (sep p : String) (l : List String) (acc : String) :
    l.foldl (fun a q => a ++ sep ++ q) (acc ++ p) =
      acc ++ l.foldl (fun a q => a ++ sep ++ q) p := by
  induction l generalizing p with
  | nil => rfl
  | cons x xs ih =>
    simp only [List.foldl_cons]
    rw [String.append_assoc acc p sep, String.append_assoc acc (p ++ sep) x, ih]

theorem intercalate_eq_joinPages (l : List String) :
    "\n\n".intercalate l = joinPages l := by
  induction l with
  | nil => rfl
  | cons p rest ih =>
    cases rest with
    | nil => rfl
    | cons q rest2 =>
      simp only [String.intercalate, intercalate_go_eq, List.foldl_cons, joinPages] at ih ⊢
      rw [← ih, String.append_assoc p "\n\n" q, foldl_join_cons, foldl_join_cons,
        String.append_assoc]

/-- C22: when the PDF loader yields pages, `extractTextFromFile` returns their
texts joined in page order with the separator `"\n\n"` (the single page text
for one page, the empty string for none); for a `text/plain` file that is
read, it returns the UTF-8 decoding of its bytes. -/
theorem extract_returns_text (env : Env) (filePath : String) :
    (∀ pages, env.pdfLoad filePath = .ok pages →
      extractTextFromFile env filePath "application/pdf" =
        .ok (joinPages (pages.map fun d => d.pageContent))) ∧
    (∀ bytes, env.readFileSync filePath = .ok bytes →
      extractTextFromFile env filePath "text/plain" = .ok (env.utf8 bytes)) ∧
    joinPages [] = "" ∧ (∀ p, joinPages [p] = p) ∧
    (∀ p q rest, joinPages (p :: q :: rest) = p ++ "\n\n" ++ joinPages (q :: rest)) := by
  refine ⟨?_, ?_, rfl, fun _ => rfl, fun _ _ _ => rfl⟩
  · intro pages h
    simp only [extractTextFromFile, if_true, h, intercalate_eq_joinPages]
  · intro bytes h
    have hne : ¬ ("text/plain" = "application/pdf") := by decide
    simp only [extractTextFromFile, if_neg hne, if_true, h]

/-- C22 at a concrete input: the file `2-b.txt` holds the bytes of `"hi"`. -/
theorem extract_returns_text_witness :
    extractTextFromFile demoEnv "/app/uploads/2-b.txt" "text/plain" = .ok "hi" :=
  (extract_returns_text demoEnv "/app/uploads/2-b.txt").2.1 [104, 105] rfl

/-! ## Lemmas: the chunker of the specification -/

theorem lastCut_some (p : List Char → Bool) (O : Nat) (window : List Char) (n : Nat)
    (h : lastCut p O window = some n) : O < n ∧ n ≤ window.length := by
  unfold lastCut at h
  have hp := List.find?_some h
  have hmem := List.mem_of_find?_eq_some h
  rw [List.mem_reverse, List.mem_range] at hmem
  simp only [Bool.and_eq_true, decide_eq_true_eq] at hp
  exact ⟨hp.1, by omega⟩

theorem cutLength_bounds (O : Nat) (window : List Char) (h : O < window.length) :
    O < cutLength O window ∧ cutLength O window ≤ window.length := by
  unfold cutLength
  cases h1 : lastCut endsParagraph O window with
  | some n => exact lastCut_some _ _ _ _ h1
  | none =>
    cases h2 : lastCut endsSentence O window with
    | some n => exact lastCut_some _ _ _ _ h2
    | none => exact ⟨h, Nat.le_refl _⟩

theorem cutLength_window (C O : Nat) (text : List Char) (hOC : O < C) (hlong : C < text.length) :
    O < cutLength O (text.take C) ∧ cutLength O (text.take C) ≤ C := by
  have hlen : (text.take C).length = C := List.length_take_of_le (Nat.le_of_lt hlong)
  have hb := cutLength_bounds O (text.take C) (by rw [hlen]; exact hOC)
  rw [hlen] at hb
  exact hb

theorem splitFuel_length_le (C O : Nat) (hOC : O < C) (fuel : Nat) (text : List Char)
    (hfuel : text.length ≤ fuel + C) :
    ∀ c ∈ splitFuel C O fuel text, c.length ≤ C := by
  induction fuel generalizing text with
  | zero =>
    intro c hc
    simp only [splitFuel, List.mem_singleton] at hc
    rw [hc]
    omega
  | succ fuel ih =>
    intro c hc
    simp only [splitFuel] at hc
    by_cases hshort : text.length ≤ C
    · rw [if_pos hshort, List.mem_singleton] at hc
      rw [hc]
      exact hshort
    · rw [if_neg hshort, List.mem_cons] at hc
      have hb := cutLength_window C O text hOC (by omega)
      rcases hc with hc | hc
      · rw [hc, List.length_take]
        exact Nat.le_trans (Nat.min_le_left _ _) hb.2
      · refine ih (text.drop (cutLength O (text.take C) - O)) ?_ c hc
        rw [List.length_drop]
        omega

theorem splitFuel_more_fuel (C O : Nat) (hOC : O < C) (fuel k : Nat) (text : List Char)
    (hfuel : text.length ≤ fuel + C) :
    splitFuel C O (fuel + k) text = splitFuel C O fuel text := by
  induction fuel generalizing text with
  | zero =>
    have hshort : text.length ≤ C := by omega
    cases k with
    | zero => rfl
    | succ k =>
      rw [Nat.zero_add]
      simp only [splitFuel, if_pos hshort]
  | succ fuel ih =>
    rw [Nat.add_right_comm]
    simp only [splitFuel]
    by_cases hshort : text.length ≤ C
    · rw [if_pos hshort, if_pos hshort]
    · rw [if_neg hshort, if_neg hshort]
      have hb := cutLength_window C O text hOC (by omega)
      rw [ih]
      rw [List.length_drop]
      omega

theorem splitFuel_head (C O : Nat) (hOC : O < C) (fuel : Nat) (text : List Char)
    (hO : O ≤ text.length) :
    ∃ m rest, splitFuel C O fuel text = text.take m :: rest ∧ O ≤ m := by
  cases fuel with
  | zero => exact ⟨text.length, [], by simp [splitFuel], hO⟩
  | succ fuel =>
    simp only [splitFuel]
    by_cases hshort : text.length ≤ C
    · rw [if_pos hshort]
      exact ⟨text.length, [], by simp, hO⟩
    · rw [if_neg hshort]
      have hb := cutLength_window C O text hOC (by omega)
      exact ⟨_, _, rfl, Nat.le_of_lt hb.1⟩

theorem splitFuel_chain (C O : Nat) (hOC : O < C) (fuel : Nat) (text : List Char) :
    List.Chain' (fun a b : List Char => O ≤ a.length ∧ a.drop (a.length - O) <+: b)
      (splitFuel C O fuel text) := by
  induction fuel generalizing text with
  | zero => simp [splitFuel]
  | succ fuel ih =>
    simp only [splitFuel]
    by_cases hshort : text.length ≤ C
    · rw [if_pos hshort]
      simp
    · rw [if_neg hshort]
      have hb := cutLength_window C O text hOC (by omega)
      rw [List.chain'_cons']
      refine ⟨?_, ih _⟩
      intro b hbhead
      have hlen : (text.take (cutLength O (text.take C))).length = cutLength O (text.take C) :=
        List.length_take_of_le (by omega)
      have hrest : O ≤ (text.drop (cutLength O (text.take C) - O)).length := by
        rw [List.length_drop]
        omega
      obtain ⟨m, rest, hsplit, hm⟩ := splitFuel_head C O hOC fuel _ hrest
      rw [hsplit] at hbhead
      simp only [List.head?_cons, Option.mem_def, Option.some.injEq] at hbhead
      subst hbhead
      rw [hlen]
      refine ⟨Nat.le_of_lt hb.1, ?_⟩
      rw [List.drop_take]
      have hsub : cutLength O (text.take C) - (cutLength O (text.take C) - O) = O := by omega
      rw [hsub]
      exact List.take_prefix_take_left _ hm

theorem chain_getElem? {α : Type} (R : α → α → Prop) (l : List α) (h : List.Chain' R l)
    (i : Nat) (a b : α) (ha : l[i]? = some a) (hb : l[i + 1]? = some b) : R a b := by
  induction l generalizing i with
  | nil => simp at ha
  | cons x xs ih =>
    rw [List.chain'_cons'] at h
    cases i with
    | zero =>
      simp only [List.getElem?_cons_zero, Option.some.injEq] at ha
      simp only [Nat.zero_add, List.getElem?_cons_succ] at hb
      subst ha
      apply h.1
      cases xs with
      | nil => simp at hb
      | cons y ys =>
        simp only [List.getElem?_cons_zero, Option.some.injEq] at hb
        simp [hb]
    | succ j =>
      simp only [List.getElem?_cons_succ] at ha hb
      exact ih h.2 j ha hb

theorem chunker_of_not_blank (C O : Nat) (text : String) (h : isBlank text = false) :
    chunker C O text = (splitFuel C O text.length text.data).map String.mk := by
  simp only [chunker, h, Bool.false_eq_true, if_false]

theorem chunker_short (C O : Nat) (text : String) (h : isBlank text = false)
    (hshort : text.length ≤ C) : chunker C O text = [text] := by
  rw [chunker_of_not_blank C O text h]
  have hlen : text.data.length ≤ C := hshort
  cases hn : text.length with
  | zero => simp [splitFuel]
  | succ n =>
    simp only [splitFuel]
    rw [if_pos hlen]
    rfl

theorem chunker_long_length (C O : Nat) (text : String) (h : isBlank text = false)
    (hlong : C < text.length) : 2 ≤ (chunker C O text).length := by
  rw [chunker_of_not_blank C O text h, List.length_map]
  have hlen : ¬ text.data.length ≤ C := by
    have : C < text.data.length := hlong
    omega
  cases hn : text.length with
  | zero =>
    have : text.data.length = 0 := hn
    omega
  | succ n =>
    simp only [splitFuel, if_neg hlen, List.length_cons]
    cases n with
    | zero => simp [splitFuel]
    | succ n =>
      simp only [splitFuel]
      split <;> simp

theorem isBlank_longText : isBlank longText = false := by
  cases h : isBlank longText with
  | false => rfl
  | true =>
    have hall := (isBlank_iff longText).mp h (Char.ofNat 97)
      (List.mem_replicate.mpr ⟨by decide, rfl⟩)
    exact absurd hall (by decide)

theorem length_longText : longText.length = 600 :=
  List.length_replicate 600 (Char.ofNat 97)

/-! ## C23: chunk size -/

/-- C23: with the chunker of the specification as splitter, every chunk that
the index builder makes from a non-blank text has at most 500 characters, a
text shorter than 500 characters gives exactly one chunk, the text itself,
and the bound on the number of cuts is never reached. -/
theorem chunks_at_most_500 (env : Env) (d : DocumentRecord) (fullText : String)
    (hsplit : env.splitText = chunker) (hnb : isBlank fullText = false) :
    (∀ c ∈ chunksOf env d fullText, c.pageContent.length ≤ 500) ∧
    (fullText.length < 500 →
      chunksOf env d fullText = [⟨fullText, ⟨d._id.toString, d.originalName⟩⟩]) ∧
    (∀ k, (splitFuel 500 100 (fullText.length + k) fullText.data).map String.mk =
      env.splitText 500 100 fullText) := by
  have hchunks : env.splitText 500 100 fullText =
      (splitFuel 500 100 fullText.length fullText.data).map String.mk := by
    rw [hsplit, chunker_of_not_blank 500 100 fullText hnb]
  refine ⟨?_, ?_, ?_⟩
  · intro c hc
    simp only [chunksOf, hchunks, List.map_map, List.mem_map, Function.comp_apply] at hc
    obtain ⟨x, hx, rfl⟩ := hc
    exact splitFuel_length_le 500 100 (by decide) fullText.length fullText.data
      (Nat.le_add_right _ _) x hx
  · intro hshort
    simp only [chunksOf, hsplit, chunker_short 500 100 fullText hnb (Nat.le_of_lt hshort),
      List.map_cons, List.map_nil]
  · intro k
    rw [hchunks, splitFuel_more_fuel 500 100 (by decide) fullText.length k fullText.data
      (Nat.le_add_right _ _)]

/-- C23 at a concrete input: the text `"hello"` of document `d1` is one chunk. -/
theorem chunks_at_most_500_witness :
    chunksOf specEnv ⟨⟨"d1"⟩, ⟨"u1"⟩, "a.txt", "1-a.txt", "text/plain", 5, .ready⟩ "hello" =
      [⟨"hello", ⟨"d1", "a.txt"⟩⟩] :=
  (chunks_at_most_500 specEnv ⟨⟨"d1"⟩, ⟨"u1"⟩, "a.txt", "1-a.txt", "text/plain", 5, .ready⟩
    "hello" rfl rfl).2.1 (by decide)

/-! ## C24: chunk overlap -/

/-- C24: with the chunker of the specification as splitter, of two
consecutive chunks of a text split with size 500 and overlap 100 the first
has at least 100 characters and the second begins with its last 100
characters. -/
theorem chunks_overlap_100 (env : Env) (fullText : String) (hsplit : env.splitText = chunker)
    (i : Nat) (a b : String)
    (ha : (env.splitText 500 100 fullText)[i]? = some a)
    (hb : (env.splitText 500 100 fullText)[i + 1]? = some b) :
    100 ≤ a.length ∧ a.data.drop (a.length - 100) <+: b.data := by
  rw [hsplit] at ha hb
  cases hbl : isBlank fullText with
  | true =>
    simp [chunker, hbl] at ha
  | false =>
    rw [chunker_of_not_blank 500 100 fullText hbl, List.getElem?_map] at ha hb
    cases hx : (splitFuel 500 100 fullText.length fullText.data)[i]? with
    | none => rw [hx] at ha; cases ha
    | some x =>
      cases hy : (splitFuel 500 100 fullText.length fullText.data)[i + 1]? with
      | none => rw [hy] at hb; cases hb
      | some y =>
        rw [hx] at ha
        rw [hy] at hb
        simp only [Option.map_some', Option.some.injEq] at ha hb
        subst ha
        subst hb
        exact chain_getElem? _ _
          (splitFuel_chain 500 100 (by decide) fullText.length fullText.data) i x y hx hy

/-- C24 at a concrete input: a text of 600 characters has a first and a second
chunk, and the second begins with the last 100 characters of the first. -/
theorem chunks_overlap_100_witness :
    ∃ a b, (specEnv.splitText 500 100 longText)[0]? = some a ∧
      (specEnv.splitText 500 100 longText)[1]? = some b ∧
      100 ≤ a.length ∧ a.data.drop (a.length - 100) <+: b.data := by
  have hspec : specEnv.splitText = chunker := rfl
  have hlong : 500 < longText.length := by
    rw [length_longText]
    decide
  have hlen : 2 ≤ (chunker 500 100 longText).length :=
    chunker_long_length 500 100 longText isBlank_longText hlong
  rw [← hspec] at hlen
  have h0 : 0 < (specEnv.splitText 500 100 longText).length := by omega
  have h1 : 1 < (specEnv.splitText 500 100 longText).length := by omega
  exact ⟨_, _, List.getElem?_eq_getElem h0, List.getElem?_eq_getElem h1,
    chunks_overlap_100 specEnv longText rfl 0 _ _ (List.getElem?_eq_getElem h0)
      (List.getElem?_eq_getElem h1)⟩

/-! ## C25: determinism -/

theorem collectChunks_congr (env1 env2 : Env)
    (hdir : env1.uploadsDir = env2.uploadsDir) (hjoin : env1.pathJoin = env2.pathJoin)
    (hexists : env1.existsSync = env2.existsSync)
    (hread : env1.readFileSync = env2.readFileSync) (hutf8 : env1.utf8 = env2.utf8)
    (hpdf : env1.pdfLoad = env2.pdfLoad) (hsplit : env1.splitText = env2.splitText)
    (docs : List DocumentRecord) (acc : List Document) :
    collectChunks env1 docs acc = collectChunks env2 docs acc := by
  induction docs generalizing acc with
  | nil => rfl
  | cons d rest ih =>
    simp only [collectChunks, extractTextFromFile, chunksOf, hdir, hjoin, hexists, hread,
      hutf8, hpdf, hsplit, ih]

theorem normalizeVec_congr (env1 env2 : Env)
    (hnum : env1.numberOfOther = env2.numberOfOther) :
    normalizeVec env1 = normalizeVec env2 := by
  have hj : jsNumber env1 = jsNumber env2 := by
    funext v
    cases v <;> simp only [jsNumber, hnum]
  funext vec
  simp only [normalizeVec]
  cases index0 vec with
  | error e => rfl
  | ok v0 =>
    simp only
    cases (if isArray v0 = true then v0 else vec) <;> simp only [mapNumber, hj]

theorem fromDocuments_congr (env1 env2 : Env)
    (hkeys : env1.processEnv = env2.processEnv)
    (hprov : env1.featureExtraction = env2.featureExtraction)
    (hnum : env1.numberOfOther = env2.numberOfOther) (docs : List Document) :
    MemoryVectorStore.fromDocuments env1 docs (embeddings env1) =
      MemoryVectorStore.fromDocuments env2 docs (embeddings env2) := by
  simp only [MemoryVectorStore.fromDocuments, HFCustomEmbeddings.embedDocuments, embeddings,
    HFCustomEmbeddings.new, hkeys, hprov, normalizeVec_congr env1 env2 hnum]

/-- C25: two worlds that agree on the ready documents of the user, on the file
system, on the splitter, on the credentials and on the provider give the same
outcome of `buildVectorStoreForUser`: the same provider requests and the same
ordered entries (chunk text, metadata, vector), or the same error; and a text
is chunked the same way in both. -/
theorem build_deterministic (env1 env2 : Env) (userId : ObjectId)
    (hdocs : findReady env1 userId = findReady env2 userId)
    (hdir : env1.uploadsDir = env2.uploadsDir) (hjoin : env1.pathJoin = env2.pathJoin)
    (hexists : env1.existsSync = env2.existsSync)
    (hread : env1.readFileSync = env2.readFileSync) (hutf8 : env1.utf8 = env2.utf8)
    (hpdf : env1.pdfLoad = env2.pdfLoad) (hsplit : env1.splitText = env2.splitText)
    (hkeys : env1.processEnv = env2.processEnv)
    (hprov : env1.featureExtraction = env2.featureExtraction)
    (hnum : env1.numberOfOther = env2.numberOfOther) :
    (buildVectorStoreForUser env1 userId).result =
      (buildVectorStoreForUser env2 userId).result ∧
    (buildVectorStoreForUser env1 userId).calls =
      (buildVectorStoreForUser env2 userId).calls ∧
    ∀ text, env1.splitText 500 100 text = env2.splitText 500 100 text := by
  have hb : buildVectorStoreForUser env1 userId = buildVectorStoreForUser env2 userId := by
    unfold buildVectorStoreForUser
    simp only [hdocs,
      collectChunks_congr env1 env2 hdir hjoin hexists hread hutf8 hpdf hsplit,
      fromDocuments_congr env1 env2 hkeys hprov hnum]
  refine ⟨by rw [hb], by rw [hb], ?_⟩
  intro text
  rw [hsplit]

/-- C25 at a concrete input: the world of `demoEnv` against one with other
users' documents removed, another similarity and a failing save. -/
theorem build_deterministic_witness :
    (buildVectorStoreForUser demoEnv ⟨"u1"⟩).result =
      (buildVectorStoreForUser
        { demoEnv with
          documents :=
            [⟨⟨"d1"⟩, ⟨"u1"⟩, "a.txt", "1-a.txt", "text/plain", 5, .ready⟩,
             ⟨⟨"d2"⟩, ⟨"u1"⟩, "b.txt", "2-b.txt", "text/plain", 2, .ready⟩,
             ⟨⟨"d5"⟩, ⟨"u1"⟩, "e.txt", "5-e.txt", "text/plain", 1, .ready⟩]
          similarity := fun _ _ => 0
          queryCreate := fun _ => .error ⟨"write failed"⟩ } ⟨"u1"⟩).result :=
  (build_deterministic demoEnv
    { demoEnv with
      documents :=
        [⟨⟨"d1"⟩, ⟨"u1"⟩, "a.txt", "1-a.txt", "text/plain", 5, .ready⟩,
         ⟨⟨"d2"⟩, ⟨"u1"⟩, "b.txt", "2-b.txt", "text/plain", 2, .ready⟩,
         ⟨⟨"d5"⟩, ⟨"u1"⟩, "e.txt", "5-e.txt", "text/plain", 1, .ready⟩]
      similarity := fun _ _ => 0
      queryCreate := fun _ => .error ⟨"write failed"⟩ } ⟨"u1"⟩
    rfl rfl rfl rfl rfl rfl rfl rfl rfl rfl rfl).1

/-! ## C26: vector dimension -/

theorem mem_zipWith_pairEntry_embedding (vectors : List (List Int))
    (documents : List Document) (mv : MemoryVector)
    (h : mv ∈ List.zipWith pairEntry vectors documents) : mv.embedding ∈ vectors := by
  induction vectors generalizing documents with
  | nil => simp at h
  | cons v vs ih =>
    cases documents with
    | nil => simp at h
    | cons d ds =>
      simp only [List.zipWith_cons_cons, List.mem_cons] at h
      rcases h with h | h
      · rw [h]
        exact List.mem_cons_self _ _
      · exact List.mem_cons_of_mem _ (ih ds h)

/-- C26 as stated fails: the provider answers the two chunks of user `u1` with
rows of dimension 2 and 1, and the build returns an index holding both. -/
theorem index_dimension_counterexample :
    (buildVectorStoreForUser raggedEnv ⟨"u1"⟩).result =
      .ok ⟨[⟨"hello", [1, 2], ⟨"d1", "a.txt"⟩⟩, ⟨"hi", [3], ⟨"d2", "b.txt"⟩⟩]⟩ ∧
    ([1, 2] : List Int).length ≠ ([3] : List Int).length :=
  ⟨rfl, by decide⟩

/-- C26 amended: the code checks no dimension; every stored vector is the
normalisation of a row of the provider's answer to the batch, so when these
all have dimension `n` every vector of the index has dimension `n`, and
`embedQuery` returns a vector of dimension `n` whenever the provider's answer
to the query normalises to that dimension. -/
theorem index_dimension_follows_provider (env : Env) (userId : ObjectId)
    (store : MemoryVectorStore) (rows : List (List JsVal)) (n : Nat)
    (hbuild : (buildVectorStoreForUser env userId).result = .ok store)
    (hresp : env.featureExtraction ⟨(embeddings env).apiKey, (embeddings env).model,
      .many (chunkBlocks env (findReady env userId)).flatten⟩ = .ok (.arr (rows.map JsVal.arr)))
    (hdim : ∀ r ∈ rows, (normalized env r).length = n) :
    (∀ mv ∈ store.memoryVectors, mv.embedding.length = n) ∧
    (∀ question res,
      env.featureExtraction ⟨(embeddings env).apiKey, (embeddings env).model,
        .one question⟩ = .ok (.arr res) →
      (normalized env res).length = n →
      ∃ vec, ((embeddings env).embedQuery env question).result = .ok vec ∧
        vec.length = n) := by
  constructor
  · intro mv hmv
    obtain ⟨_, _, _, vectors, hemb, _, hz⟩ := build_ok_inv env userId store hbuild
    rw [keptChunks_texts] at hemb
    simp only [HFCustomEmbeddings.embedDocuments, hresp, mapThrowing_normalizeVec_rows,
      Except.ok.injEq] at hemb
    rw [hz] at hmv
    have hv := mem_zipWith_pairEntry_embedding _ _ _ hmv
    rw [← hemb] at hv
    obtain ⟨r, hr, hre⟩ := List.mem_map.mp hv
    rw [← hre]
    exact hdim r hr
  · intro question res hq hn
    refine ⟨normalized env res, ?_, hn⟩
    simp only [HFCustomEmbeddings.embedQuery, hq, normalizeVec_arr]

/-- C26 amended, at a concrete input: the provider of `demoEnv` answers with
rows of dimension 2, and so are the vectors of the index of user `u1`. -/
theorem index_dimension_follows_provider_witness :
    (buildVectorStoreForUser demoEnv ⟨"u1"⟩).result =
      .ok ⟨[⟨"hello", [5, 1], ⟨"d1", "a.txt"⟩⟩, ⟨"hi", [2, 1], ⟨"d2", "b.txt"⟩⟩]⟩ ∧
    ([⟨"hello", [5, 1], ⟨"d1", "a.txt"⟩⟩, ⟨"hi", [2, 1], ⟨"d2", "b.txt"⟩⟩] :
      List MemoryVector).all (fun mv => mv.embedding.length == 2) = true :=
  ⟨rfl, List.all_eq_true.mpr fun mv hmv => by
    simpa using (index_dimension_follows_provider demoEnv ⟨"u1"⟩
      ⟨[⟨"hello", [5, 1], ⟨"d1", "a.txt"⟩⟩, ⟨"hi", [2, 1], ⟨"d2", "b.txt"⟩⟩]⟩
      [[.num 5, .num 1], [.num 2, .num 1]] 2 rfl rfl
      (by
        intro r hr
        simp only [List.mem_cons, List.mem_singleton, List.not_mem_nil, or_false] at hr
        rcases hr with rfl | rfl <;> rfl)).1 mv hmv⟩

/-! ## C27: the status written by `processDocument` -/

theorem find?_findByIdAndUpdate (id : ObjectId) (status : Status) (docs : List DocumentRecord) :
    (findByIdAndUpdate id status docs).find? (fun d => d._id = id) =
      (docs.find? fun d => d._id = id).map fun d => { d with status := status } := by
  induction docs with
  | nil => rfl
  | cons d ds ih =>
    simp only [findByIdAndUpdate]
    by_cases h : d._id = id
    · simp [h]
    · simp [h, ih]

theorem processDocumentTry_ok_iff (env : Env) (doc : DocumentRecord) :
    (∃ store, (processDocumentTry env doc).result = .ok store) ↔
      env.existsSync (env.pathJoin env.uploadsDir doc.storedFilename) = true ∧
      ∃ fullText,
        extractTextFromFile env (env.pathJoin env.uploadsDir doc.storedFilename)
          doc.mimeType = .ok fullText ∧
        isBlank fullText = false ∧
        ∃ store, (MemoryVectorStore.fromDocuments env
          ((env.splitText 500 100 fullText).map fun c => ⟨c, ⟨"", ""⟩⟩)
          (embeddings env)).result = .ok store := by
  unfold processDocumentTry
  simp only
  cases hex : env.existsSync (env.pathJoin env.uploadsDir doc.storedFilename) with
  | false => simp
  | true =>
    simp only [Bool.not_true, Bool.false_eq_true, if_false, true_and]
    cases htx : extractTextFromFile env (env.pathJoin env.uploadsDir doc.storedFilename)
        doc.mimeType with
    | error e => simp
    | ok fullText =>
      simp only [Except.ok.injEq, exists_eq_left']
      cases hb : isBlank fullText with
      | true => simp
      | false => simp

/-- C27: `processDocument` always returns normally and issues exactly one
status update, for the `_id` of the document, with status `ready` or `error`;
the status is `ready` if and only if the file exists, extraction returns a
non-blank text and embedding its chunks into a store succeeds, and `error` in
every other case. -/
theorem processDocument_sets_status (env : Env) (doc : DocumentRecord) :
    (processDocument env doc).result = .ok () ∧
    ∃ s, (s = Status.ready ∨ s = Status.error) ∧
      (processDocument env doc).writes = [(doc._id, s)] ∧
      (processDocument env doc).documents = findByIdAndUpdate doc._id s env.documents ∧
      ((processDocument env doc).documents.find? (fun d => d._id = doc._id) =
        (env.documents.find? fun d => d._id = doc._id).map fun d => { d with status := s }) ∧
      (s = Status.ready ↔
        env.existsSync (env.pathJoin env.uploadsDir doc.storedFilename) = true ∧
        ∃ fullText,
          extractTextFromFile env (env.pathJoin env.uploadsDir doc.storedFilename)
            doc.mimeType = .ok fullText ∧
          isBlank fullText = false ∧
          ∃ store, (MemoryVectorStore.fromDocuments env
            ((env.splitText 500 100 fullText).map fun c => ⟨c, ⟨"", ""⟩⟩)
            (embeddings env)).result = .ok store) := by
  have hiff := processDocumentTry_ok_iff env doc
  cases ht : (processDocumentTry env doc).result with
  | ok store =>
    have hp : processDocument env doc =
        ⟨.ok (), [(doc._id, Status.ready)],
          findByIdAndUpdate doc._id Status.ready env.documents,
          (processDocumentTry env doc).calls⟩ := by
      simp only [processDocument, ht]
    rw [hp]
    refine ⟨rfl, Status.ready, Or.inl rfl, rfl, rfl, find?_findByIdAndUpdate _ _ _, ?_⟩
    constructor
    · intro _
      exact hiff.mp ⟨store, ht⟩
    · intro _
      rfl
  | error err =>
    have hp : processDocument env doc =
        ⟨.ok (), [(doc._id, Status.error)],
          findByIdAndUpdate doc._id Status.error env.documents,
          (processDocumentTry env doc).calls⟩ := by
      simp only [processDocument, ht]
    rw [hp]
    refine ⟨rfl, Status.error, Or.inr rfl, rfl, rfl, find?_findByIdAndUpdate _ _ _, ?_⟩
    constructor
    · intro h
      cases h
    · intro h
      obtain ⟨store, hs⟩ := hiff.mpr h
      rw [ht] at hs
      cases hs

/-! ## C28: the upload filter -/

theorem fileFilter_ok_iff (file : UploadFile) :
    fileFilter file = .ok true ↔
      (file.mimetype = "application/pdf" ∨ file.mimetype = "text/plain") := by
  unfold fileFilter
  simp only
  by_cases h : (["application/pdf", "text/plain"].contains file.mimetype) = true
  · rw [if_pos h]
    simp only [List.contains_iff_exists_mem_beq, List.mem_cons, List.mem_singleton,
      List.not_mem_nil, or_false, beq_iff_eq, exists_eq_or_imp, exists_eq_left] at h
    constructor
    · intro _
      rcases h with h | h
      · exact Or.inl h
      · exact Or.inr h
    · intro _
      rfl
  · rw [if_neg h]
    simp only [List.contains_iff_exists_mem_beq, List.mem_cons, List.mem_singleton,
      List.not_mem_nil, or_false, beq_iff_eq, exists_eq_or_imp, exists_eq_left] at h
    constructor
    · intro hc
      cases hc
    · intro hc
      exact absurd hc h

theorem postUpload_document (env : Env) (userId : ObjectId) (now : Nat)
    (created : Except JsError ObjectId) (file : Option UploadFile) (doc : DocumentRecord)
    (h : (postUpload env userId now created file).document = some doc) :
    ∃ f, file = some f ∧ fileFilter f = .ok true ∧ doc.mimeType = f.mimetype ∧
      doc.userId = userId ∧ doc.status = Status.ready := by
  unfold postUpload at h
  cases file with
  | none => simp [uploadSingle] at h
  | some f =>
    simp only [uploadSingle] at h
    cases hf : fileFilter f with
    | error e =>
      rw [hf] at h
      simp at h
    | ok b =>
      rw [hf] at h
      cases b with
      | false => simp at h
      | true =>
        simp only at h
        by_cases hsize : f.size > 10 * 1024 * 1024
        · rw [if_pos hsize] at h
          simp at h
        · rw [if_neg hsize] at h
          simp only at h
          cases created with
          | error e => simp at h
          | ok id =>
            simp only [Option.some.injEq] at h
            subst h
            exact ⟨f, rfl, hf, rfl, rfl, rfl⟩

/-- C28: `fileFilter` accepts a file exactly when its mimetype is
`application/pdf` or `text/plain`; every document created by the upload route
has such a content type (and status `ready`), so every error of
`extractTextFromFile` on it is the error of the PDF loader or of reading the
file, never the unsupported-type error. -/
theorem upload_filter_matches_extractor (env : Env) (userId : ObjectId) (now : Nat)
    (created : Except JsError ObjectId) (file : Option UploadFile) :
    (∀ f, fileFilter f = .ok true ↔
      (f.mimetype = "application/pdf" ∨ f.mimetype = "text/plain")) ∧
    (∀ doc, (postUpload env userId now created file).document = some doc →
      (doc.mimeType = "application/pdf" ∨ doc.mimeType = "text/plain") ∧
      ∀ (env2 : Env) (filePath : String) (e : JsError),
        extractTextFromFile env2 filePath doc.mimeType = .error e →
        env2.pdfLoad filePath = .error e ∨ env2.readFileSync filePath = .error e) := by
  refine ⟨fileFilter_ok_iff, ?_⟩
  intro doc hdoc
  obtain ⟨f, _, hf, hmime, _, _⟩ := postUpload_document env userId now created file doc hdoc
  have hsupp : doc.mimeType = "application/pdf" ∨ doc.mimeType = "text/plain" := by
    rw [hmime]
    exact (fileFilter_ok_iff f).mp hf
  refine ⟨hsupp, ?_⟩
  intro env2 filePath e he
  rcases hsupp with hp | ht
  · rw [hp] at he
    simp only [extractTextFromFile, if_true] at he
    left
    cases hl : env2.pdfLoad filePath with
    | error e2 => rw [hl] at he; cases he; rfl
    | ok docs => rw [hl] at he; cases he
  · rw [ht] at he
    have hne : ¬ ("text/plain" = "application/pdf") := by decide
    simp only [extractTextFromFile, if_neg hne, if_true] at he
    right
    cases hl : env2.readFileSync filePath with
    | error e2 => rw [hl] at he; cases he; rfl
    | ok buffer => rw [hl] at he; cases he

/-- C28 at a concrete input: the upload of a PDF at time 1700. -/
theorem upload_filter_matches_extractor_witness :
    (postUpload demoEnv ⟨"u1"⟩ 1700 (.ok ⟨"d10"⟩)
        (some ⟨"n.pdf", "application/pdf", 100⟩)).document =
      some ⟨⟨"d10"⟩, ⟨"u1"⟩, "n.pdf", "1700-n.pdf", "application/pdf", 100, .ready⟩ ∧
    ("application/pdf" = "application/pdf" ∨ "application/pdf" = "text/plain") :=
  ⟨rfl, ((upload_filter_matches_extractor demoEnv ⟨"u1"⟩ 1700 (.ok ⟨"d10"⟩)
    (some ⟨"n.pdf", "application/pdf", 100⟩)).2
    ⟨⟨"d10"⟩, ⟨"u1"⟩, "n.pdf", "1700-n.pdf", "application/pdf", 100, .ready⟩ rfl).1⟩

/-! ## C29: deleting a document -/

/-- C29: when no document with the given id is owned by the caller (every
document with that id has another owner, or there is none), the delete route
answers 404 "Document not found" and the collection is unchanged; whenever
the route changes the collection, a document with that id owned by the caller
exists, and with unique ids every document that disappears has that id and is
owned by the caller. -/
theorem delete_requires_ownership (env : Env) (userId id : ObjectId) :
    ((∀ d ∈ env.documents, d._id = id → d.userId ≠ userId) →
      (deleteDocument env userId id).response = ⟨404, .message "Document not found"⟩ ∧
      (deleteDocument env userId id).documents = env.documents) ∧
    ((deleteDocument env userId id).documents ≠ env.documents →
      ∃ d ∈ env.documents, d._id = id ∧ d.userId = userId) ∧
    ((env.documents.map fun d => d._id).Nodup →
      ∀ d ∈ env.documents, d ∉ (deleteDocument env userId id).documents →
        d._id = id ∧ d.userId = userId) := by
  refine ⟨?_, ?_, ?_⟩
  · intro h
    have hnone : (env.documents.find? fun d => d._id = id && d.userId = userId) = none := by
      rw [List.find?_eq_none]
      intro d hd hp
      simp only [Bool.and_eq_true, decide_eq_true_eq] at hp
      exact h d hd hp.1 hp.2
    have hdel : deleteDocument env userId id =
        ⟨⟨404, .message "Document not found"⟩, env.documents⟩ := by
      simp only [deleteDocument, hnone]
    rw [hdel]
    exact ⟨rfl, rfl⟩
  · intro hchange
    cases hf : (env.documents.find? fun d => d._id = id && d.userId = userId) with
    | none =>
      simp only [deleteDocument, hf] at hchange
      exact absurd rfl hchange
    | some doc =>
      have hp := List.find?_some hf
      simp only [Bool.and_eq_true, decide_eq_true_eq] at hp
      exact ⟨doc, List.mem_of_find?_eq_some hf, hp.1, hp.2⟩
  · intro hids d hd hgone
    cases hf : (env.documents.find? fun d => d._id = id && d.userId = userId) with
    | none =>
      simp only [deleteDocument, hf] at hgone
      exact absurd hd hgone
    | some doc =>
      have hp := List.find?_some hf
      simp only [Bool.and_eq_true, decide_eq_true_eq] at hp
      have hdoc := List.mem_of_find?_eq_some hf
      simp only [deleteDocument, hf] at hgone
      have hpd : d._id = doc._id := by
        by_contra hne
        have hneg : ¬ (decide (d._id = doc._id) = true) := by simpa using hne
        have hm : d ∈ List.eraseP (fun d => decide (d._id = doc._id)) env.documents ↔
            d ∈ env.documents := List.mem_eraseP_of_neg hneg
        exact hgone (hm.mpr hd)
      have heq : d = doc := List.inj_on_of_nodup_map hids hd hdoc hpd
      rw [heq]
      exact hp

/-- C29 at a concrete input: user `u1` asks to delete `d3`, which belongs to
`u2`. -/
theorem delete_requires_ownership_witness :
    (deleteDocument demoEnv ⟨"u1"⟩ ⟨"d3"⟩).response =
      ⟨404, .message "Document not found"⟩ ∧
    (deleteDocument demoEnv ⟨"u1"⟩ ⟨"d3"⟩).documents = demoDocuments :=
  (delete_requires_ownership demoEnv ⟨"u1"⟩ ⟨"d3"⟩).1 (by decide)

/-! ## C30: the saved history record -/

theorem postAnswer_saves_inv (env : Env) (userId : ObjectId) (q X : Option String)
    (record : QueryRecord) (h : record ∈ (postAnswer env userId q X).saves) :
    ∃ question results answer, q = some question ∧
      (queryUserDocuments env userId question 5 (jsOr X none)).result = .ok results ∧
      record = toQueryRecord userId question answer (toSources results) := by
  unfold postAnswer at h
  cases q with
  | none => simp at h
  | some s =>
    simp only at h
    split at h
    · simp at h
    · split at h
      · simp at h
      · cases hr : (queryUserDocuments env userId s 5 (jsOr X none)).result with
        | error err =>
          rw [hr] at h
          simp at h
        | ok results =>
          rw [hr] at h
          simp only at h
          split at h
          · simp at h
          · split at h
            · simp at h
            · split at h
              · simp at h
              · split at h
                · simp at h
                · rename_i _ content _
                  refine ⟨s, results, (jsOr content
                    (some "I couldn\x27t generate an answer from the documents.")).getD
                    "I couldn\x27t generate an answer from the documents.", rfl, hr, ?_⟩
                  split at h <;> exact List.mem_singleton.mp h

theorem toUtf16_of_bmp (l : List Char) (h : ∀ c ∈ l, c.toNat < 0x10000) :
    l.flatMap utf16Units = l.map Char.toNat := by
  induction l with
  | nil => rfl
  | cons c cs ih =>
    have hc : c.toNat < 0x10000 := h c (List.mem_cons_self _ _)
    have hcs := ih fun x hx => h x (List.mem_cons_of_mem _ hx)
    simp only [List.flatMap_cons, List.map_cons, hcs, utf16Units, if_pos hc,
      List.singleton_append]

set_option maxRecDepth 100000 in
/-- C30 as stated fails: a source text of 200 characters, each outside the
Basic Multilingual Plane, is shorter than 300 characters, yet the saved
snippet is not the whole text: it is cut after 300 of its 400 UTF-16 code
units, which are its first 150 characters. -/
theorem saved_snippet_counterexample :
    emojiText.length = 200 ∧
    (toUtf16 emojiText).length = 400 ∧
    (toQueryRecord ⟨"u1"⟩ "hey" "answer" [⟨emojiText, "d1", "a.txt", 1⟩]).sources.map
        (fun x => x.textSnippet) =
      [toUtf16 (String.mk (List.replicate 150 (Char.ofNat 0x1F600)))] ∧
    (toQueryRecord ⟨"u1"⟩ "hey" "answer" [⟨emojiText, "d1", "a.txt", 1⟩]).sources.map
        (fun x => x.textSnippet) ≠ [toUtf16 emojiText] := by
  refine ⟨by decide, by decide, by decide, by decide⟩

/-- C30 amended: the record saved by `/rag/answer` has one entry per source,
in the same order, with the same `sourceNumber`; its `textSnippet` is the
first 300 UTF-16 code units of the source text (the whole text when it has at
most 300 code units, so the empty string for an empty text) and never has
more than 300 code units; for a text without characters outside the Basic
Multilingual Plane these are its first 300 characters; an empty
`documentName` is replaced by "Unknown document" and an empty `documentId` by
null; and every record that the route passes to `Query.create` is built this
way from the sources of the query results. -/
theorem saved_sources_follow_sources (env : Env) (userId : ObjectId)
    (question answer : String) (sources : List Source) :
    (toQueryRecord userId question answer sources).sources.length = sources.length ∧
    (∀ i (h1 : i < sources.length)
        (h2 : i < (toQueryRecord userId question answer sources).sources.length),
      ((toQueryRecord userId question answer sources).sources.get ⟨i, h2⟩).sourceNumber =
        (sources.get ⟨i, h1⟩).sourceNumber ∧
      ((toQueryRecord userId question answer sources).sources.get ⟨i, h2⟩).textSnippet =
        (toUtf16 (sources.get ⟨i, h1⟩).text).take 300 ∧
      ((toQueryRecord userId question answer sources).sources.get ⟨i, h2⟩).textSnippet.length
        ≤ 300 ∧
      ((toUtf16 (sources.get ⟨i, h1⟩).text).length ≤ 300 →
        ((toQueryRecord userId question answer sources).sources.get ⟨i, h2⟩).textSnippet =
          toUtf16 (sources.get ⟨i, h1⟩).text) ∧
      ((sources.get ⟨i, h1⟩).text = "" →
        ((toQueryRecord userId question answer sources).sources.get ⟨i, h2⟩).textSnippet =
          []) ∧
      ((∀ c ∈ (sources.get ⟨i, h1⟩).text.data, c.toNat < 0x10000) →
        ((toQueryRecord userId question answer sources).sources.get ⟨i, h2⟩).textSnippet =
          toUtf16 (String.mk ((sources.get ⟨i, h1⟩).text.data.take 300))) ∧
      ((toQueryRecord userId question answer sources).sources.get ⟨i, h2⟩).documentName =
        (if (sources.get ⟨i, h1⟩).documentName = "" then "Unknown document"
          else (sources.get ⟨i, h1⟩).documentName) ∧
      ((toQueryRecord userId question answer sources).sources.get ⟨i, h2⟩).documentId =
        (if (sources.get ⟨i, h1⟩).documentId = "" then none
          else some (sources.get ⟨i, h1⟩).documentId)) ∧
    (∀ X record, record ∈ (postAnswer env userId (some question) X).saves →
      ∃ results answer2,
        (queryUserDocuments env userId question 5 (jsOr X none)).result = .ok results ∧
        record = toQueryRecord userId question answer2 (toSources results)) := by
  refine ⟨by simp [toQueryRecord], ?_, ?_⟩
  · intro i h1 h2
    have hget : (toQueryRecord userId question answer sources).sources.get ⟨i, h2⟩ =
        ⟨if (sources.get ⟨i, h1⟩).documentId = "" then none
            else some (sources.get ⟨i, h1⟩).documentId,
          if (sources.get ⟨i, h1⟩).documentName = "" then "Unknown document"
            else (sources.get ⟨i, h1⟩).documentName,
          jsSliceFromStart (sources.get ⟨i, h1⟩).text 300,
          (sources.get ⟨i, h1⟩).sourceNumber⟩ := by
      simp [toQueryRecord]
    rw [hget]
    refine ⟨rfl, rfl, ?_, ?_, ?_, ?_, rfl, rfl⟩
    · show (List.take 300 (toUtf16 (sources.get ⟨i, h1⟩).text)).length ≤ 300
      rw [List.length_take]
      exact Nat.min_le_left _ _
    · intro hlen
      show List.take 300 (toUtf16 (sources.get ⟨i, h1⟩).text) = _
      rw [List.take_of_length_le hlen]
    · intro hempty
      show List.take 300 (toUtf16 (sources.get ⟨i, h1⟩).text) = []
      rw [hempty]
      rfl
    · intro hbmp
      show List.take 300 (toUtf16 (sources.get ⟨i, h1⟩).text) = _
      have htake : ∀ c ∈ (sources.get ⟨i, h1⟩).text.data.take 300, c.toNat < 0x10000 :=
        fun c hc => hbmp c (List.mem_of_mem_take hc)
      simp only [toUtf16]
      rw [toUtf16_of_bmp _ hbmp, toUtf16_of_bmp _ htake, List.map_take]
  · intro X record h
    obtain ⟨q2, results, answer2, hq, hr, hrec⟩ :=
      postAnswer_saves_inv env userId (some question) X record h
    cases hq
    exact ⟨results, answer2, hr, hrec⟩

/-- C30 amended, at a concrete input: the record saved for the question
`"hey"` of user `u1`, with the snippets `"hello"` and `"hi"` as code units. -/
theorem saved_sources_follow_sources_witness :
    (postAnswer chatEnv ⟨"u1"⟩ (some "hey") none).saves =
      [⟨⟨"u1"⟩, "hey", "answer",
        [⟨some "d1", "a.txt", [104, 101, 108, 108, 111], 1⟩,
         ⟨some "d2", "b.txt", [104, 105], 2⟩]⟩] ∧
    ∃ results answer2,
      (queryUserDocuments chatEnv ⟨"u1"⟩ "hey" 5 (jsOr none none)).result = .ok results ∧
      (⟨⟨"u1"⟩, "hey", "answer",
        [⟨some "d1", "a.txt", [104, 101, 108, 108, 111], 1⟩,
         ⟨some "d2", "b.txt", [104, 105], 2⟩]⟩ : QueryRecord) =
        toQueryRecord ⟨"u1"⟩ "hey" answer2 (toSources results) :=
  ⟨rfl, (saved_sources_follow_sources chatEnv ⟨"u1"⟩ "hey" "answer" []).2.2 none
    ⟨⟨"u1"⟩, "hey", "answer",
      [⟨some "d1", "a.txt", [104, 101, 108, 108, 111], 1⟩,
       ⟨some "d2", "b.txt", [104, 105], 2⟩]⟩
    (List.mem_singleton.mpr rfl)⟩

end DocumentDB
